import Mathlib

/-!
Verification development for the a2ui hackathon repository.

The repository's core is a response-normalization layer (`src/app/api/generate/route.ts`),
a session controller (`src/app/page.tsx`) and a renderer surface selection
(`A2UIRenderer` in `page.tsx`).  Strings are modelled as `List Char`; the
JavaScript `JSON.parse` / `JSON.stringify` pair is modelled by an executable
recursive-descent JSON parser and serializer over that representation.
-/

set_option autoImplicit false

abbrev Str := List Char

/-- Whitespace set used by the JavaScript `trim`, `trimEnd` and the regex class
`\s` (restricted to its ASCII members). -/
def isWs (c : Char) : Bool :=
  c == ' ' || c == '\t' || c == '\n' || c == '\r' || c == '\x0b' || c == '\x0c'

/-- Whitespace accepted between JSON tokens by `JSON.parse` (RFC 8259). -/
def isJWs (c : Char) : Bool :=
  c == ' ' || c == '\t' || c == '\n' || c == '\r'

/-- ASCII decimal digit test. -/
def isDigitCh (c : Char) : Bool :=
  48 ≤ c.toNat && c.toNat ≤ 57

/-- JavaScript `String.prototype.trimStart` (ASCII whitespace). -/
def trimStartL (s : Str) : Str := s.dropWhile isWs

/-- JavaScript `String.prototype.trimEnd` (ASCII whitespace). -/
def trimEndL (s : Str) : Str := (s.reverse.dropWhile isWs).reverse

/-- JavaScript `String.prototype.trim` (ASCII whitespace). -/
def trimL (s : Str) : Str := trimEndL (trimStartL s)

/-- Boolean prefix test: `startsWithL p s` holds when `p` is a prefix of `s`. -/
def startsWithL : Str → Str → Bool
  | [], _ => true
  | _ :: _, [] => false
  | c :: p, e :: s => c == e && startsWithL p s

/-- Split `s` at the first occurrence of the infix `d`: returns the part
before and the part after that occurrence, or `none` when `d` does not occur. -/
def splitFirst (d : Str) : Str → Option (Str × Str)
  | [] => if startsWithL d [] then some ([], ([] : Str).drop d.length) else none
  | c :: s =>
    if startsWithL d (c :: s) then some ([], (c :: s).drop d.length)
    else (splitFirst d s).map (fun p => (c :: p.1, p.2))

/-- JavaScript `s.split(d, 2)` destructured as `[before, second]`: `before` is
the text before the first occurrence of `d`, `second` the text between the
first and second occurrences (or to the end when `d` occurs once). -/
def split2 (d s : Str) : Str × Option Str :=
  match splitFirst d s with
  | none => (s, none)
  | some (a, rest) =>
    match splitFirst d rest with
    | none => (a, some rest)
    | some (b, _) => (a, some b)

/-- JavaScript `String.prototype.includes`. -/
def includesB (d s : Str) : Bool := (splitFirst d s).isSome

/-- Number of positions of `s` at which the pattern `d` starts (used to state
"the delimiter occurs exactly once"). -/
def countOcc (d : Str) : Str → Nat
  | [] => if startsWithL d [] then 1 else 0
  | c :: s => (if startsWithL d (c :: s) then 1 else 0) + countOcc d s

/-- JSON values as produced by `JSON.parse`.  Numbers keep their literal token
(JavaScript numbers are doubles; the claims of the specification never depend
on numeric magnitude, only on token identity, which the token representation
preserves exactly under serialization). -/
inductive Json where
  | null : Json
  | bool (b : Bool) : Json
  | num (tok : Str) : Json
  | str (s : Str) : Json
  | arr (elems : List Json) : Json
  | obj (fields : List (Str × Json)) : Json

mutual

def Json.beq : Json → Json → Bool
  | .null, .null => true
  | .bool a, .bool b => a == b
  | .num a, .num b => a == b
  | .str a, .str b => a == b
  | .arr xs, .arr ys => Json.beqList xs ys
  | .obj xs, .obj ys => Json.beqFields xs ys
  | _, _ => false

def Json.beqList : List Json → List Json → Bool
  | [], [] => true
  | x :: xs, y :: ys => Json.beq x y && Json.beqList xs ys
  | _, _ => false

def Json.beqFields : List (Str × Json) → List (Str × Json) → Bool
  | [], [] => true
  | (k, v) :: xs, (k2, v2) :: ys => k == k2 && Json.beq v v2 && Json.beqFields xs ys
  | _, _ => false

end

/-- Decidable equality for `Json`, via `Json.beq` (the correctness proof is
inlined so that the instance is self-contained). -/
instance : DecidableEq Json := fun a b =>
  decidable_of_iff (Json.beq a b = true) (by
    have hlist : ∀ (xs ys : List Json),
        (∀ x ∈ xs, ∀ b, Json.beq x b = true ↔ x = b) →
        (Json.beqList xs ys = true ↔ xs = ys) := by
      intro xs
      induction xs with
      | nil => intro ys ih; cases ys <;> simp [Json.beqList]
      | cons x xs ihx =>
        intro ys ih
        cases ys with
        | nil => simp [Json.beqList]
        | cons y ys =>
          simp only [Json.beqList, Bool.and_eq_true, List.cons.injEq]
          rw [ih x (by simp), ihx ys (fun z hz b => ih z (by simp [hz]) b)]
    have hfields : ∀ (xs ys : List (Str × Json)),
        (∀ p ∈ xs, ∀ b, Json.beq p.2 b = true ↔ p.2 = b) →
        (Json.beqFields xs ys = true ↔ xs = ys) := by
      intro xs
      induction xs with
      | nil => intro ys ih; cases ys <;> simp [Json.beqFields]
      | cons x xs ihx =>
        intro ys ih
        cases ys with
        | nil => cases x; simp [Json.beqFields]
        | cons y ys =>
          cases x with
          | mk k v =>
            cases y with
            | mk k2 v2 =>
              simp only [Json.beqFields, Bool.and_eq_true, List.cons.injEq, Prod.mk.injEq,
                beq_iff_eq]
              rw [ih (k, v) (by simp) v2, ihx ys (fun z hz b => ih z (by simp [hz]) b)]
    have haux : ∀ (n : Nat) (a : Json), sizeOf a ≤ n →
        ∀ b, Json.beq a b = true ↔ a = b := by
      intro n
      induction n with
      | zero => intro a ha; cases a <;> simp at ha
      | succ n ihn =>
        intro a ha b
        cases a with
        | null => cases b <;> simp [Json.beq]
        | bool x => cases b <;> simp [Json.beq]
        | num t => cases b <;> simp [Json.beq]
        | str s => cases b <;> simp [Json.beq]
        | arr xs =>
          cases b with
          | arr ys =>
            simp only [Json.beq, Json.arr.injEq]
            refine hlist xs ys (fun x hx b => ihn x ?_ b)
            have h1 := List.sizeOf_lt_of_mem hx
            simp only [Json.arr.sizeOf_spec] at ha
            omega
          | null => simp [Json.beq]
          | bool _ => simp [Json.beq]
          | num _ => simp [Json.beq]
          | str _ => simp [Json.beq]
          | obj _ => simp [Json.beq]
        | obj fs =>
          cases b with
          | obj gs =>
            simp only [Json.beq, Json.obj.injEq]
            refine hfields fs gs (fun p hp b => ihn p.2 ?_ b)
            have h1 := List.sizeOf_lt_of_mem hp
            have h2 : sizeOf p.2 < sizeOf p := by
              cases p with
              | mk k v => simp
            simp only [Json.obj.sizeOf_spec] at ha
            omega
          | null => simp [Json.beq]
          | bool _ => simp [Json.beq]
          | num _ => simp [Json.beq]
          | str _ => simp [Json.beq]
          | arr _ => simp [Json.beq]
    exact haux (sizeOf a) a le_rfl b)

/-! ### JSON parsing (model of JavaScript `JSON.parse`) -/

/-- Skip JSON inter-token whitespace. -/
def skipJWs (s : Str) : Str := s.dropWhile isJWs

/-- Hexadecimal digit value, as accepted in `\u` escapes. -/
def parseHex (c : Char) : Option Nat :=
  if 48 ≤ c.toNat && c.toNat ≤ 57 then some (c.toNat - 48)
  else if 97 ≤ c.toNat && c.toNat ≤ 102 then some (c.toNat - 87)
  else if 65 ≤ c.toNat && c.toNat ≤ 70 then some (c.toNat - 55)
  else none

/-- Single-character string escapes accepted by `JSON.parse`. -/
def escMap (c : Char) : Option Char :=
  if c = '"' then some '"'
  else if c = '\\' then some '\\'
  else if c = '/' then some '/'
  else if c = 'b' then some '\x08'
  else if c = 'f' then some '\x0c'
  else if c = 'n' then some '\n'
  else if c = 'r' then some '\r'
  else if c = 't' then some '\t'
  else none

/-- Prepend a decoded character to the result of a string-body parse. -/
def consFst (c : Char) : Option (Str × Str) → Option (Str × Str)
  | some (tail, rest) => some (c :: tail, rest)
  | none => none

/-- Combine four hex digits into a code point. -/
def hex4 (h1 h2 h3 h4 : Char) : Option Nat :=
  match parseHex h1, parseHex h2, parseHex h3, parseHex h4 with
  | some n1, some n2, some n3, some n4 => some (((n1 * 16 + n2) * 16 + n3) * 16 + n4)
  | _, _, _, _ => none

mutual

/-- Parse the body of a JSON string literal (after the opening quote) up to and
including the closing quote; returns the decoded characters and the rest of
the input.  Raw control characters are rejected, as in `JSON.parse`. -/
def parseStrBody : Str → Option (Str × Str)
  | [] => none
  | c :: r =>
    if c = '"' then some ([], r)
    else if c = '\\' then parseEsc r
    else if c.toNat < 32 then none
    else consFst c (parseStrBody r)

/-- Parse the remainder of a backslash escape. -/
def parseEsc : Str → Option (Str × Str)
  | [] => none
  | e :: r2 =>
    if e = 'u' then parseU r2
    else
      match escMap e with
      | some ec => consFst ec (parseStrBody r2)
      | none => none

/-- Parse the four hex digits of a `\u` escape. -/
def parseU : Str → Option (Str × Str)
  | h1 :: h2 :: h3 :: h4 :: r3 =>
    match hex4 h1 h2 h3 h4 with
    | some n => consFst (Char.ofNat n) (parseStrBody r3)
    | none => none
  | _ => none

end

/-- Parse the integer part of a JSON number (`0`, or a nonzero digit followed
by more digits). -/
def parseInt : Str → Option (Str × Str)
  | [] => none
  | c :: r =>
    if c = '0' then some ([c], r)
    else if isDigitCh c then some (c :: r.takeWhile isDigitCh, r.dropWhile isDigitCh)
    else none

/-- The digit run after a fraction dot `c`: empty run means the dot does not
start a fraction and nothing is consumed. -/
def fracBody (c : Char) (r : Str) : Str × Str :=
  if (r.takeWhile isDigitCh).isEmpty then ([], c :: r)
  else (c :: r.takeWhile isDigitCh, r.dropWhile isDigitCh)

/-- Parse an optional fraction part (`.` followed by one or more digits); when
the grammar does not match, consume nothing. -/
def parseFrac : Str → Str × Str
  | [] => ([], [])
  | c :: r => if c = '.' then fracBody c r else ([], c :: r)

/-- The optional sign of an exponent. -/
def expSign : Str → Str × Str
  | [] => ([], [])
  | s2 :: r2 => if s2 = '+' ∨ s2 = '-' then ([s2], r2) else ([], s2 :: r2)

/-- The sign and digit run after an exponent marker `c`: an empty digit run
means the marker does not start an exponent and nothing is consumed. -/
def expBody (c : Char) (r : Str) : Str × Str :=
  if ((expSign r).2.takeWhile isDigitCh).isEmpty then ([], c :: r)
  else (c :: ((expSign r).1 ++ (expSign r).2.takeWhile isDigitCh),
        (expSign r).2.dropWhile isDigitCh)

/-- Parse an optional exponent part (`e`/`E`, optional sign, one or more
digits); when the grammar does not match, consume nothing. -/
def parseExp : Str → Str × Str
  | [] => ([], [])
  | c :: r => if c = 'e' ∨ c = 'E' then expBody c r else ([], c :: r)

/-- Continuation of number parsing after the optional minus sign `neg` and the
integer part `it`: the optional fraction and exponent read from `s2`,
assembled into the full token. -/
def numAfterInt (neg it s2 : Str) : Str × Str :=
  (neg ++ (it ++ ((parseFrac s2).1 ++ (parseExp (parseFrac s2).2).1)),
   (parseExp (parseFrac s2).2).2)

/-- Dispatch on the result of the integer-part parse. -/
def numTail2 (neg : Str) : Option (Str × Str) → Option (Str × Str)
  | none => none
  | some (it, s2) => some (numAfterInt neg it s2)

/-- Number parsing after the optional minus sign. -/
def numTail (neg r : Str) : Option (Str × Str) := numTail2 neg (parseInt r)

/-- Parse a JSON number token (maximal munch); returns the token text and the
rest of the input. -/
def parseNum : Str → Option (Str × Str)
  | [] => none
  | c :: r => if c = '-' then numTail [c] r else numTail [] (c :: r)

/-- A continuation is "number-safe" when its first character cannot extend a
preceding number token (used by the serialization round-trip lemmas). -/
def numSafe (rest : Str) : Bool :=
  match rest with
  | [] => true
  | c :: _ => !(isDigitCh c || c == '.' || c == 'e' || c == 'E')

mutual

/-- Fueled recursive-descent JSON value parser. -/
def parseVal : Nat → Str → Option (Json × Str)
  | 0, _ => none
  | fuel + 1, s0 =>
    let s := skipJWs s0
    if startsWithL ("null".data) s then some (.null, s.drop 4)
    else if startsWithL ("true".data) s then some (.bool true, s.drop 4)
    else if startsWithL ("false".data) s then some (.bool false, s.drop 5)
    else
      match s with
      | c :: r =>
        if c = '"' then
          match parseStrBody r with
          | some (body, rest) => some (.str body, rest)
          | none => none
        else if c = '[' then
          match skipJWs r with
          | d :: r2 =>
            if d = ']' then some (.arr [], r2)
            else
              match parseElems fuel r with
              | some (es, rest) => some (.arr es, rest)
              | none => none
          | [] => none
        else if c = '\x7b' then
          match skipJWs r with
          | d :: r2 =>
            if d = '\x7d' then some (.obj [], r2)
            else
              match parseFields fuel r with
              | some (fs, rest) => some (.obj fs, rest)
              | none => none
          | [] => none
        else
          match parseNum s with
          | some (tok, rest) => some (.num tok, rest)
          | none => none
      | [] => none

/-- Parse one or more comma-separated array elements up to the closing `]`. -/
def parseElems : Nat → Str → Option (List Json × Str)
  | 0, _ => none
  | fuel + 1, s =>
    match parseVal fuel s with
    | none => none
    | some (v, r) =>
      match skipJWs r with
      | c :: r2 =>
        if c = ',' then
          match parseElems fuel r2 with
          | some (es, rest) => some (v :: es, rest)
          | none => none
        else if c = ']' then some ([v], r2)
        else none
      | [] => none

/-- Parse one or more comma-separated object members up to the closing brace. -/
def parseFields : Nat → Str → Option (List (Str × Json) × Str)
  | 0, _ => none
  | fuel + 1, s =>
    match skipJWs s with
    | c :: r =>
      if c = '"' then
        match parseStrBody r with
        | none => none
        | some (k, r1) =>
          match skipJWs r1 with
          | d :: r2 =>
            if d = ':' then
              match parseVal fuel r2 with
              | none => none
              | some (v, r3) =>
                match skipJWs r3 with
                | e :: r4 =>
                  if e = ',' then
                    match parseFields fuel r4 with
                    | some (fs, rest) => some ((k, v) :: fs, rest)
                    | none => none
                  else if e = '\x7d' then some ([(k, v)], r4)
                  else none
                | [] => none
            else none
          | [] => none
      else none
    | [] => none

end

/-- Model of `JSON.parse`: parse one value and require only trailing JSON
whitespace after it. -/
def jsonParse (s : Str) : Option Json :=
  match parseVal (s.length + 1) s with
  | some (v, rest) => if (skipJWs rest).isEmpty then some v else none
  | none => none

/-! ### JSON serialization (model of JavaScript `JSON.stringify`) -/

/-- Lower-case hexadecimal digit. -/
def hexDigit (n : Nat) : Char :=
  if n < 10 then Char.ofNat (48 + n) else Char.ofNat (87 + n)

/-- Escaping of one character inside a serialized JSON string, as performed by
`JSON.stringify`. -/
def escChar (c : Char) : Str :=
  if c = '"' then ['\\', '"']
  else if c = '\\' then ['\\', '\\']
  else if c = '\x08' then ['\\', 'b']
  else if c = '\x0c' then ['\\', 'f']
  else if c = '\n' then ['\\', 'n']
  else if c = '\r' then ['\\', 'r']
  else if c = '\t' then ['\\', 't']
  else if c.toNat < 32 then ['\\', 'u', '0', '0', hexDigit (c.toNat / 16), hexDigit (c.toNat % 16)]
  else [c]

/-- Serialize a string with quotes and escapes. -/
def sStr (s : Str) : Str := '"' :: (s.flatMap escChar ++ ['"'])

mutual

/-- Model of `JSON.stringify` (no spacing argument, as used by the page). -/
def stringify : Json → Str
  | .null => "null".data
  | .bool true => "true".data
  | .bool false => "false".data
  | .num tok => tok
  | .str s => sStr s
  | .arr es => '[' :: (stringifyElems es ++ [']'])
  | .obj fs => '\x7b' :: (stringifyFields fs ++ ['\x7d'])

/-- Comma-separated serialization of array elements. -/
def stringifyElems : List Json → Str
  | [] => []
  | [e] => stringify e
  | e :: es => stringify e ++ (',' :: stringifyElems es)

/-- Comma-separated serialization of object members. -/
def stringifyFields : List (Str × Json) → Str
  | [] => []
  | [(k, v)] => sStr k ++ (':' :: stringify v)
  | (k, v) :: fs => (sStr k ++ (':' :: stringify v)) ++ (',' :: stringifyFields fs)

end

/-! ### Size measure and well-formedness for the round-trip proof -/

mutual

/-- Fuel lower bound needed by `parseVal` to re-parse a serialized value. -/
def jsize : Json → Nat
  | .null => 1
  | .bool _ => 1
  | .num _ => 1
  | .str _ => 1
  | .arr es => 1 + jsizeL es
  | .obj fs => 1 + jsizeF fs

def jsizeL : List Json → Nat
  | [] => 0
  | e :: es => 1 + jsize e + jsizeL es

def jsizeF : List (Str × Json) → Nat
  | [] => 0
  | (_, v) :: fs => 1 + jsize v + jsizeF fs

end

mutual

/-- Well-formedness: every number token is a complete JSON number token.  All
values produced by `jsonParse` satisfy it, and it is exactly what the
serialize/parse round trip needs. -/
def jsonWF : Json → Bool
  | .num tok => parseNum tok == some (tok, [])
  | .arr es => jsonWFL es
  | .obj fs => jsonWFF fs
  | _ => true

def jsonWFL : List Json → Bool
  | [] => true
  | e :: es => jsonWF e && jsonWFL es

def jsonWFF : List (Str × Json) → Bool
  | [] => true
  | (_, v) :: fs => jsonWF v && jsonWFF fs

end

/-! ### Response normalizer (embedding of the parts loop of
`src/app/api/generate/route.ts`, lines 117-207) -/

/-- The sentinel delimiter separating prose from embedded A2UI JSON. -/
def delim : Str := "---a2ui_JSON---".data

/-- Mime type marking a structured A2UI data part. -/
def a2uiMime : Str := "application/json+a2ui".data

/-- Does the candidate start with a code fence carrying the `json` language
tag (the opening-fence test of the regex `^` + three backticks + `json\s*`
with the `i` flag)? -/
def openFenceTag (s : Str) : Bool :=
  startsWithL ("```".data) s &&
    (match s.drop 3 with
     | d :: e :: f :: g :: _ =>
       d.toLower == 'j' && e.toLower == 's' && f.toLower == 'o' && g.toLower == 'n'
     | _ => false)

/-- `replace` with the opening-fence regex: strips the seven marker characters
and any following whitespace, when the tag matches. -/
def stripOpenFence (s : Str) : Str :=
  if openFenceTag s then (s.drop 7).dropWhile isWs else s

/-- `replace` with the closing-fence regex (`\s*` + three backticks + `$`):
strips a trailing fence and the whitespace run before it. -/
def stripCloseFence (s : Str) : Str :=
  let r := s.reverse
  if startsWithL ("```".data) r then ((r.drop 3).dropWhile isWs).reverse else s

/-- The `cleaned` pipeline applied to an embedded JSON candidate:
`.trim().replace(openFence, "").replace(closeFence, "").trim()`. -/
def stripFences (jp : Str) : Str := trimL (stripCloseFence (stripOpenFence (trimL jp)))

/-- Messages contributed by the JSON candidate of one text part: nothing for a
blank candidate, a spread for a parsed array, a single message for any other
parsed value, nothing on parse failure. -/
def candMsgs (jp : Str) : List Json :=
  if (trimL jp).isEmpty then []
  else
    match jsonParse (stripFences jp) with
    | some (.arr xs) => xs
    | some v => [v]
    | none => []

/-- One part of the agent response, with the fields the route consumes. -/
structure RespPart where
  kind : Str
  text : Option Str := none
  mime : Option Str := none
  data : Option Json := none
deriving DecidableEq

/-- Accumulated normalizer output: `a2uiMessages` and `textContent`. -/
structure NormState where
  messages : List Json
  text : Str
deriving DecidableEq

/-- JavaScript truthiness of a JSON value (for the `part.data` check). -/
def jsonTruthy : Json → Bool
  | .null => false
  | .bool b => b
  | .str s => !s.isEmpty
  | .num tok =>
    !((tok.takeWhile (fun c => !(c == 'e' || c == 'E'))).all
        (fun c => c == '0' || c == '.' || c == '-'))
  | .arr _ => true
  | .obj _ => true

/-- `part.kind === "text" && typeof part.text === "string"`. -/
def isTextPart (p : RespPart) : Bool := p.kind == "text".data && p.text.isSome

/-- `part.kind === "data" && part.metadata?.mimeType === "application/json+a2ui"
&& part.data`. -/
def isDataPart (p : RespPart) : Bool :=
  p.kind == "data".data && p.mime == some a2uiMime &&
    (match p.data with | some d => jsonTruthy d | none => false)

/-- Messages contributed by one text part's content: the part after the first
delimiter (up to a second delimiter, per `split(delim, 2)`) drives `candMsgs`;
without a delimiter, nothing. -/
def textMsgs (raw : Str) : List Json :=
  match split2 delim raw with
  | (_, some jp) => candMsgs jp
  | (_, none) => []

/-- Text contributed by one text part's content: everything before the first
delimiter with trailing whitespace trimmed, or the whole content when no
delimiter occurs. -/
def textText (raw : Str) : Str :=
  match split2 delim raw with
  | (b, some _) => trimEndL b
  | (_, none) => raw

/-- One iteration of the parts loop. -/
def processPart (st : NormState) (p : RespPart) : NormState :=
  let st1 :=
    if isTextPart p then
      { st with
        messages := st.messages ++ textMsgs (p.text.getD []),
        text := st.text ++ textText (p.text.getD []) }
    else st
  if isDataPart p then { st1 with messages := st1.messages ++ [p.data.getD .null] } else st1

/-- Messages contributed by a single part, independent of the accumulator. -/
def partMsgs (p : RespPart) : List Json :=
  (if isTextPart p then textMsgs (p.text.getD []) else []) ++
    (if isDataPart p then [p.data.getD .null] else [])

/-- The final fallback: when no messages were found but the concatenated text
contains the delimiter, run the extraction once against the whole text. -/
def fallbackStep (st : NormState) : NormState :=
  if st.messages.isEmpty && includesB delim st.text then
    match split2 delim st.text with
    | (b, some jp) => ⟨candMsgs jp, trimEndL b⟩
    | (b, none) => ⟨st.messages, trimEndL b⟩
  else st

/-- Opening `<text>` wrapper test (case-insensitive). -/
def openTextTag (s : Str) : Bool :=
  match s with
  | a :: b :: c :: d :: e :: f :: _ =>
    a == '<' && b.toLower == 't' && c.toLower == 'e' && d.toLower == 'x' &&
      e.toLower == 't' && f == '>'
  | _ => false

/-- Strip an opening `<text>` wrapper and following whitespace. -/
def stripOpenTag (s : Str) : Str :=
  if openTextTag s then (s.drop 6).dropWhile isWs else s

/-- Reversed closing `</text>` wrapper test (case-insensitive). -/
def closeTextTagRev (r : Str) : Bool :=
  match r with
  | a :: b :: c :: d :: e :: f :: g :: _ =>
    a == '>' && b.toLower == 't' && c.toLower == 'x' && d.toLower == 'e' &&
      e.toLower == 't' && f == '/' && g == '<'
  | _ => false

/-- Strip a closing `</text>` wrapper and the whitespace run before it. -/
def stripCloseTag (s : Str) : Str :=
  let r := s.reverse
  if closeTextTagRev r then ((r.drop 7).dropWhile isWs).reverse else s

/-- Post-processing of the accumulated text: strip the `<text>` wrapper and
trim. -/
def postText (t : Str) : Str := trimL (stripCloseTag (stripOpenTag t))

/-- The normalizer: fold the parts loop from the empty state, apply the
fallback once, post-process the text. -/
def normalizeResp (parts : List RespPart) : NormState :=
  let st := parts.foldl processPart ⟨[], []⟩
  let st2 := fallbackStep st
  ⟨st2.messages, postText st2.text⟩

/-! ### Session controller (embedding of `submit`, `reset` and the screen
wiring of `src/app/page.tsx`) -/

/-- The `AppState` union of the page. -/
inductive AppState where
  | idle
  | thinking
  | rendered
  | error
deriving DecidableEq

/-- A `HistoryTurn` of the conversation thread. -/
structure HistoryTurn where
  role : Str
  content : Str
deriving DecidableEq

/-- The page state touched by `submit` and `reset`. -/
structure Session where
  appState : AppState
  a2uiMessages : List Json
  history : List HistoryTurn
  lastPrompt : Str
  errorMsg : Str
deriving DecidableEq

/-- The initial page state. -/
def initSession : Session := ⟨.idle, [], [], [], []⟩

/-- The body of `/api/generate`'s response as consumed by the page. -/
structure ApiData where
  error : Option Str
  messages : Option (List Json)
  text : Str
deriving DecidableEq

/-- Result of the page's `fetch` of `/api/generate`: a rejected promise
(timeout or connection failure, carrying the thrown error's message), a
non-ok HTTP status, or a decoded JSON body. -/
inductive FetchOutcome where
  | netFail (msg : Str)
  | httpFail (status : Nat)
  | ok (d : ApiData)
deriving DecidableEq

/-- The fatal "no UI" message thrown by `submit`. -/
def noUiMsg : Str := "Claude generated no UI — try rephrasing".data

/-- Assistant-turn content built on a successful turn: the response text (when
non-empty) followed by the delimiter and `JSON.stringify` of the messages,
or the serialized messages alone. -/
def assistantContent (text : Str) (ms : List Json) : Str :=
  if text.isEmpty then stringify (.arr ms)
  else text ++ ('\n' :: delim) ++ ('\n' :: stringify (.arr ms))

/-- One complete run of `submit(prompt, isRefinement)` given the outcome of
the network call, as a function on the page state. -/
def doSubmit (s : Session) (prompt : Str) (isRef : Bool) (out : FetchOutcome) : Session :=
  let trimmed := trimL prompt
  if trimmed.isEmpty || s.appState == .thinking then s
  else
    let base : Session :=
      { appState := .thinking,
        a2uiMessages := if isRef then s.a2uiMessages else [],
        history := if isRef then s.history else [],
        lastPrompt := trimmed,
        errorMsg := [] }
    let historyToSend := if isRef then s.history else []
    match out with
    | .netFail msg => { base with appState := .error, errorMsg := msg }
    | .httpFail status =>
      { base with appState := .error,
                  errorMsg := "Server error: ".data ++ (Nat.repr status).data }
    | .ok d =>
      if ¬ (d.error.getD []).isEmpty then
        { base with appState := .error, errorMsg := d.error.getD [] }
      else
        match d.messages with
        | none => { base with appState := .error, errorMsg := noUiMsg }
        | some [] => { base with appState := .error, errorMsg := noUiMsg }
        | some (m :: ms) =>
          { base with
            appState := .rendered,
            a2uiMessages := m :: ms,
            history := historyToSend ++
              [⟨"user".data, trimmed⟩,
               ⟨"assistant".data, assistantContent d.text (m :: ms)⟩] }

/-- The `reset` handler ("New UI" / "Try again"). -/
def resetSession (s : Session) : Session :=
  { s with appState := .idle, a2uiMessages := [], history := [], errorMsg := [] }

/-- Page states reachable through the UI wiring: `submit(_, false)` is only
offered on the idle screen, `submit(_, true)` only on the rendered screen's
refine bar, and `reset` on the rendered and error screens. -/
inductive Reachable : Session → Prop where
  | init : Reachable initSession
  | submitNew (s : Session) (p : Str) (out : FetchOutcome) :
      Reachable s → s.appState = .idle → Reachable (doSubmit s p false out)
  | submitRef (s : Session) (p : Str) (out : FetchOutcome) :
      Reachable s → s.appState = .rendered → Reachable (doSubmit s p true out)
  | doReset (s : Session) : Reachable s → Reachable (resetSession s)

/-- Did the turn succeed (reach `setState("rendered")`)? -/
def turnSuccess (out : FetchOutcome) : Bool :=
  match out with
  | .ok d => (d.error.getD []).isEmpty && !(d.messages.getD []).isEmpty
  | _ => false

/-! ### Renderer surface selection (embedding of `A2UIRenderer` in
`src/app/page.tsx`, lines 52-54 and 78-81) -/

/-- Shallow JSON field access (`m.f` / `"f" in m`); later duplicate keys win,
as in `JSON.parse`d JavaScript objects. -/
def jsGet (m : Json) (f : Str) : Option Json :=
  match m with
  | .obj kvs => (kvs.reverse.find? (fun kv => kv.1 == f)).map (fun kv => kv.2)
  | _ => none

/-- The ECMAScript `in` operator applied to a `JSON.parse`d value: objects
and arrays answer key membership (an array has no `beginRendering`-style
property), while the primitives `null`, booleans, numbers and strings throw
a `TypeError`, modeled as `none`. -/
def jsIn (f : Str) (m : Json) : Option Bool :=
  match m with
  | .obj kvs => some ((jsGet (Json.obj kvs) f).isSome)
  | .arr _ => some false
  | _ => none

/-- `messages.find((m) => "beginRendering" in m)`, scanning left to right; a
`TypeError` thrown by the predicate propagates out of `find` (`none`), an
exhausted scan returns `undefined` (`some none`). -/
def findBegin : List Json → Option (Option Json)
  | [] => some none
  | m :: ms =>
    match jsIn ("beginRendering".data) m with
    | none => none
    | some true => some (some m)
    | some false => findBegin ms

/-- Outcome of the renderer's surface selection: the thrown `TypeError`
reaches the surrounding `catch` and nothing is rendered (`aborted`), the
`if (!beginMsg?.beginRendering) return` guard fires (`noSurface`), or a
payload is selected and its `surfaceId`/`root` drive rendering. -/
inductive RenderSel where
  | aborted
  | noSurface
  | selected (payload : Json)
deriving DecidableEq

/-- The selection performed by the renderer's `init` body on its `messages`
argument: find the first message carrying `beginRendering`, bail out on a
falsy payload, abort on a thrown `TypeError`. -/
def renderSelect (ms : List Json) : RenderSel :=
  match findBegin ms with
  | none => .aborted
  | some none => .noSurface
  | some (some m) =>
    match jsGet m ("beginRendering".data) with
    | some p => if jsonTruthy p then .selected p else .noSurface
    | none => .noSurface

/-- The `surfaceId` destructured from the selected payload. -/
def chosenSurfaceId (ms : List Json) : Option Json :=
  match renderSelect ms with
  | .selected p => jsGet p ("surfaceId".data)
  | _ => none

/-! ### Request validation (embedding of the prompt guard of
`src/app/api/generate/route.ts`, lines 13-48) -/

/-- What the route does with a decoded request body: answer immediately with
an error response, or build the RPC payload carrying the trimmed prompt and
call the agent. -/
inductive RouteAction where
  | respond (status : Nat) (errMsg : Str)
  | callAgent (promptTrimmed : Str)
deriving DecidableEq

/-- The guard `if (!prompt || typeof prompt !== "string" || !prompt.trim())`
followed by construction of the outbound RPC payload. -/
def routeStart (body : Json) : RouteAction :=
  match jsGet body ("prompt".data) with
  | none => .respond 400 ("prompt is required".data)
  | some v =>
    if ¬ jsonTruthy v then .respond 400 ("prompt is required".data)
    else
      match v with
      | .str s => if (trimL s).isEmpty then .respond 400 ("prompt is required".data)
                  else .callAgent (trimL s)
      | _ => .respond 400 ("prompt is required".data)

/-! ### String lemmas -/

theorem startsWithL_iff (d s : Str) : startsWithL d s = true ↔ ∃ t, s = d ++ t := by
  induction d generalizing s with
  | nil => simp [startsWithL]
  | cons c d ih =>
    cases s with
    | nil =>
      simp only [startsWithL, List.cons_append]
      constructor
      · intro h; cases h
      · rintro ⟨t, ht⟩; cases ht
    | cons e s =>
      simp only [startsWithL, Bool.and_eq_true, beq_iff_eq, ih, List.cons_append]
      constructor
      · rintro ⟨rfl, t, rfl⟩; exact ⟨t, rfl⟩
      · rintro ⟨t, ht⟩
        injection ht with h1 h2
        exact ⟨h1.symm, t, h2⟩

theorem startsWithL_self (d t : Str) : startsWithL d (d ++ t) = true :=
  (startsWithL_iff d (d ++ t)).mpr ⟨t, rfl⟩

theorem splitFirst_pos (d s : Str) (h : startsWithL d s = true) :
    splitFirst d s = some ([], s.drop d.length) := by
  cases s <;> simp [splitFirst, h]

theorem splitFirst_neg (d : Str) (c : Char) (s : Str)
    (h : startsWithL d (c :: s) = false) :
    splitFirst d (c :: s) = (splitFirst d s).map (fun p => (c :: p.1, p.2)) := by
  simp [splitFirst, h]

theorem splitFirst_some_decomp (d : Str) :
    ∀ (s a r : Str), splitFirst d s = some (a, r) → s = a ++ (d ++ r) := by
  intro s
  induction s with
  | nil =>
    intro a r h
    simp only [splitFirst] at h
    split at h
    · rename_i hsw
      obtain ⟨t, ht⟩ := (startsWithL_iff d []).mp hsw
      have hd : d = [] := by
        cases d with
        | nil => rfl
        | cons x xs => cases ht
      cases h
      simp [hd]
    · cases h
  | cons c s ih =>
    intro a r h
    by_cases hs : startsWithL d (c :: s) = true
    · rw [splitFirst_pos d (c :: s) hs] at h
      obtain ⟨t, ht⟩ := (startsWithL_iff d (c :: s)).mp hs
      injection h with h1
      injection h1 with ha hr
      subst ha
      rw [ht, List.drop_left] at hr
      rw [ht, ← hr]
      simp
    · rw [splitFirst_neg d c s (by simpa using hs)] at h
      cases hsp : splitFirst d s with
      | none => rw [hsp] at h; cases h
      | some p =>
        rw [hsp] at h
        injection h with h1
        injection h1 with ha hr
        have := ih p.1 p.2 (by rw [hsp])
        subst ha
        rw [← hr, this]
        simp

theorem splitFirst_isSome_append (d a t : Str) (h : (splitFirst d a).isSome = true) :
    (splitFirst d (a ++ t)).isSome = true := by
  induction a with
  | nil =>
    simp only [splitFirst] at h
    split at h
    · rename_i hsw
      have hd : d = [] := by
        obtain ⟨u, hu⟩ := (startsWithL_iff d []).mp hsw
        cases d with
        | nil => rfl
        | cons x xs => cases hu
      subst hd
      cases t with
      | nil => simp [splitFirst, startsWithL]
      | cons c t => rw [List.nil_append, splitFirst_pos [] (c :: t) rfl]; rfl
    · cases h
  | cons c a ih =>
    by_cases hs : startsWithL d (c :: a) = true
    · obtain ⟨u, hu⟩ := (startsWithL_iff d (c :: a)).mp hs
      have h2 : startsWithL d ((c :: a) ++ t) = true := by
        refine (startsWithL_iff d ((c :: a) ++ t)).mpr ⟨u ++ t, ?_⟩
        rw [hu]; simp
      rw [splitFirst_pos d ((c :: a) ++ t) h2]
      rfl
    · rw [splitFirst_neg d c a (by simpa using hs)] at h
      have ha : (splitFirst d a).isSome = true := by
        cases hsp : splitFirst d a with
        | none => rw [hsp] at h; cases h
        | some p => rfl
      have h3 := ih ha
      rw [List.cons_append]
      by_cases hs2 : startsWithL d (c :: (a ++ t)) = true
      · rw [splitFirst_pos d (c :: (a ++ t)) hs2]; rfl
      · rw [splitFirst_neg d c (a ++ t) (by simpa using hs2)]
        cases hsp : splitFirst d (a ++ t) with
        | none => rw [hsp] at h3; cases h3
        | some p => rfl

theorem includesB_append_of (d a t : Str) (h : includesB d a = true) :
    includesB d (a ++ t) = true :=
  splitFirst_isSome_append d a t h

theorem includesB_false_of_append (d a t : Str) (h : includesB d (a ++ t) = false) :
    includesB d a = false := by
  by_contra hc
  rw [includesB_append_of d a t (by revert hc; cases includesB d a <;> simp)] at h
  cases h

theorem includesB_false_iff_none (d s : Str) :
    includesB d s = false ↔ splitFirst d s = none := by
  rw [includesB]
  cases splitFirst d s <;> simp

theorem countOcc_cons (d : Str) (c : Char) (s : Str) :
    countOcc d (c :: s) = (if startsWithL d (c :: s) = true then 1 else 0) + countOcc d s := by
  simp [countOcc]

theorem countOcc_append_ge (d x y : Str) : countOcc d y ≤ countOcc d (x ++ y) := by
  induction x with
  | nil => simp
  | cons c x ih =>
    rw [List.cons_append, countOcc_cons]
    omega

theorem countOcc_decomp_ge_one (d x y : Str) (hd : d ≠ []) :
    1 + countOcc d y ≤ countOcc d (x ++ (d ++ y)) := by
  have h1 : 1 + countOcc d y ≤ countOcc d (d ++ y) := by
    cases d with
    | nil => exact absurd rfl hd
    | cons e d2 =>
      rw [List.cons_append, countOcc_cons,
        if_pos (show startsWithL (e :: d2) (e :: (d2 ++ y)) = true from
          startsWithL_self (e :: d2) y)]
      have := countOcc_append_ge (e :: d2) d2 y
      omega
  exact le_trans h1 (countOcc_append_ge d x (d ++ y))

theorem countOcc_ge_one (d x y : Str) (hd : d ≠ []) :
    1 ≤ countOcc d (x ++ (d ++ y)) := by
  have := countOcc_decomp_ge_one d x y hd
  omega

theorem includesB_false_of_countOne_right (a b : Str)
    (h : countOcc delim (a ++ (delim ++ b)) = 1) : includesB delim b = false := by
  by_contra hc
  have h2 : includesB delim b = true := by revert hc; cases includesB delim b <;> simp
  rw [includesB] at h2
  cases hsp : splitFirst delim b with
  | none => rw [hsp] at h2; cases h2
  | some p =>
    have hb := splitFirst_some_decomp delim b p.1 p.2 (by rw [hsp])
    have hge : 2 ≤ countOcc delim (a ++ (delim ++ b)) := by
      have g1 : 1 + countOcc delim b ≤ countOcc delim (a ++ (delim ++ b)) :=
        countOcc_decomp_ge_one delim a b (by decide)
      have g2 : 1 ≤ countOcc delim b := by
        rw [hb]; exact countOcc_ge_one delim p.1 p.2 (by decide)
      omega
    omega

theorem includesB_false_of_countOne_left (a b : Str)
    (h : countOcc delim (a ++ (delim ++ b)) = 1) : includesB delim a = false := by
  by_contra hc
  have h2 : includesB delim a = true := by revert hc; cases includesB delim a <;> simp
  rw [includesB] at h2
  cases hsp : splitFirst delim a with
  | none => rw [hsp] at h2; cases h2
  | some p =>
    have ha := splitFirst_some_decomp delim a p.1 p.2 (by rw [hsp])
    have hge : 2 ≤ countOcc delim (a ++ (delim ++ b)) := by
      have hrw : a ++ (delim ++ b) = p.1 ++ (delim ++ (p.2 ++ (delim ++ b))) := by
        rw [ha]; simp
      rw [hrw]
      have g1 : 1 + countOcc delim (p.2 ++ (delim ++ b)) ≤
          countOcc delim (p.1 ++ (delim ++ (p.2 ++ (delim ++ b)))) :=
        countOcc_decomp_ge_one delim p.1 (p.2 ++ (delim ++ b)) (by decide)
      have g2 : 1 ≤ countOcc delim (p.2 ++ (delim ++ b)) :=
        countOcc_ge_one delim p.2 b (by decide)
      omega
    omega

theorem splitFirst_delim (a b : Str)
    (h : countOcc delim (a ++ (delim ++ b)) = 1) :
    splitFirst delim (a ++ (delim ++ b)) = some (a, b) := by
  induction a with
  | nil =>
    rw [List.nil_append, splitFirst_pos delim (delim ++ b) (startsWithL_self delim b),
      List.drop_left]
  | cons c a ih =>
    have hsw : startsWithL delim (c :: (a ++ (delim ++ b))) = false := by
      by_contra hc
      have h2 : startsWithL delim (c :: (a ++ (delim ++ b))) = true := by
        revert hc; cases startsWithL delim (c :: (a ++ (delim ++ b))) <;> simp
      rw [List.cons_append, countOcc_cons, if_pos h2] at h
      have := countOcc_ge_one delim a b (by decide)
      omega
    have htail : countOcc delim (a ++ (delim ++ b)) = 1 := by
      rw [List.cons_append, countOcc_cons, if_neg (by simp [hsw])] at h
      omega
    rw [List.cons_append, splitFirst_neg delim c (a ++ (delim ++ b)) hsw, ih htail]
    rfl

theorem split2_delim (a b : Str)
    (h : countOcc delim (a ++ (delim ++ b)) = 1) :
    split2 delim (a ++ (delim ++ b)) = (a, some b) := by
  have h1 := splitFirst_delim a b h
  have h2 := (includesB_false_iff_none delim b).mp (includesB_false_of_countOne_right a b h)
  rw [split2, h1]
  simp [h2]

theorem includesB_delim_decomp (a b : Str) :
    includesB delim (a ++ (delim ++ b)) = true := by
  induction a with
  | nil =>
    rw [includesB, List.nil_append,
      splitFirst_pos delim (delim ++ b) (startsWithL_self delim b)]
    rfl
  | cons c a ih =>
    rw [includesB, List.cons_append]
    by_cases hs : startsWithL delim (c :: (a ++ (delim ++ b))) = true
    · rw [splitFirst_pos delim _ hs]; rfl
    · rw [splitFirst_neg delim c _ (by simpa using hs)]
      rw [includesB] at ih
      cases hsp : splitFirst delim (a ++ (delim ++ b)) with
      | none => rw [hsp] at ih; cases ih
      | some p => rfl

theorem trimEndL_decomp (s : Str) :
    ∃ w, s = trimEndL s ++ w ∧ ∀ c ∈ w, isWs c = true := by
  refine ⟨(s.reverse.takeWhile isWs).reverse, ?_, ?_⟩
  · rw [trimEndL, ← List.reverse_append, List.takeWhile_append_dropWhile, List.reverse_reverse]
  · intro c hc
    rw [List.mem_reverse] at hc
    exact List.mem_takeWhile_imp hc

theorem includesB_trimEndL_false (d s : Str) (h : includesB d s = false) :
    includesB d (trimEndL s) = false := by
  obtain ⟨w, hw, -⟩ := trimEndL_decomp s
  rw [hw] at h
  exact includesB_false_of_append d (trimEndL s) w h

/-! ### Normalizer lemmas -/

theorem processPart_eq (st : NormState) (p : RespPart) :
    processPart st p =
      ⟨st.messages ++ partMsgs p,
       st.text ++ (if isTextPart p then textText (p.text.getD []) else [])⟩ := by
  by_cases h1 : isTextPart p = true <;> by_cases h2 : isDataPart p = true <;>
    simp [processPart, partMsgs, h1, h2]

theorem foldl_processPart_messages :
    ∀ (ps : List RespPart) (st : NormState),
      (ps.foldl processPart st).messages = st.messages ++ (ps.map partMsgs).flatten := by
  intro ps
  induction ps with
  | nil => intro st; simp
  | cons p ps ih =>
    intro st
    rw [List.foldl_cons, ih, processPart_eq]
    simp

theorem stripFences_nil_of_trim (jp : Str) (h : trimL jp = []) : stripFences jp = [] := by
  rw [stripFences, h]
  rfl

theorem jsonParse_nil : jsonParse [] = none := by decide

theorem candMsgs_eq (jp : Str) :
    candMsgs jp =
      (match jsonParse (stripFences jp) with
       | some (Json.arr xs) => xs
       | some v => [v]
       | none => []) := by
  rw [candMsgs]
  by_cases hg : (trimL jp).isEmpty = true
  · have he : trimL jp = [] := by
      cases hjp : trimL jp with
      | nil => rfl
      | cons c t => rw [hjp] at hg; cases hg
    rw [if_pos hg, stripFences_nil_of_trim jp he, jsonParse_nil]
  · rw [if_neg (by simp [hg])]

theorem isDataPart_of_text_kind (p : RespPart) (h : p.kind = "text".data) :
    isDataPart p = false := by
  rw [isDataPart, h]
  have hne : (("text".data : Str) == "data".data) = false := by decide
  simp [hne]

theorem isTextPart_of_text (p : RespPart) (hk : p.kind = "text".data) (ht : p.text.isSome) :
    isTextPart p = true := by
  rw [isTextPart, hk, ht]
  rfl

theorem textMsgs_delim (before after : Str)
    (h : countOcc delim (before ++ (delim ++ after)) = 1) :
    textMsgs (before ++ (delim ++ after)) = candMsgs after := by
  rw [textMsgs, split2_delim before after h]

theorem textText_delim (before after : Str)
    (h : countOcc delim (before ++ (delim ++ after)) = 1) :
    textText (before ++ (delim ++ after)) = trimEndL before := by
  rw [textText, split2_delim before after h]

/-! ### Claim C1 -/

/-- C1: for every text part whose content contains the sentinel delimiter
(exactly once, so that the text before and after the delimiter is well
defined), the normalizer appends everything before the delimiter to the output
text with trailing whitespace trimmed, and treats everything after it as a
candidate JSON document: a parsed array is spread element-by-element into the
messages, any other parsed value is appended as one message, and a parse
failure contributes no messages while the fold continues with the remaining
parts. -/
theorem c1_delimited_text_part (st : NormState) (p : RespPart) (before after : Str)
    (hkind : p.kind = "text".data)
    (htext : p.text = some (before ++ (delim ++ after)))
    (honce : countOcc delim (before ++ (delim ++ after)) = 1) :
    (processPart st p).text = st.text ++ trimEndL before ∧
    (∀ xs, jsonParse (stripFences after) = some (Json.arr xs) →
      (processPart st p).messages = st.messages ++ xs) ∧
    (∀ v, jsonParse (stripFences after) = some v → (∀ xs, v ≠ Json.arr xs) →
      (processPart st p).messages = st.messages ++ [v]) ∧
    (jsonParse (stripFences after) = none →
      (processPart st p).messages = st.messages) ∧
    (∀ (rest : List RespPart),
      (p :: rest).foldl processPart st = rest.foldl processPart (processPart st p)) := by
  have hT : isTextPart p = true := isTextPart_of_text p hkind (by rw [htext]; rfl)
  have hD : isDataPart p = false := isDataPart_of_text_kind p hkind
  have hget : p.text.getD [] = before ++ (delim ++ after) := by rw [htext]; rfl
  have hpp := processPart_eq st p
  have hmsg : (processPart st p).messages = st.messages ++ candMsgs after := by
    rw [hpp]
    show st.messages ++ partMsgs p = _
    rw [partMsgs, hT, hD, hget]
    simp [textMsgs_delim before after honce]
  refine ⟨?_, ?_, ?_, ?_, ?_⟩
  · rw [hpp]
    show st.text ++ (if isTextPart p then textText (p.text.getD []) else []) = _
    rw [hT, hget, if_pos rfl, textText_delim before after honce]
  · intro xs hx
    rw [hmsg, candMsgs_eq, hx]
  · intro v hv hnarr
    rw [hmsg, candMsgs_eq, hv]
    cases v with
    | arr xs => exact absurd rfl (hnarr xs)
    | null => rfl
    | bool _ => rfl
    | num _ => rfl
    | str _ => rfl
    | obj _ => rfl
  · intro hn
    rw [hmsg, candMsgs_eq, hn]
    simp
  · intro rest
    rw [List.foldl_cons]

/-- C1 witness: the boundary example of the specification, instantiated at the
empty accumulator. -/
theorem c1_delimited_text_part_witness :
    (processPart ⟨[], []⟩
      ⟨"text".data,
        some (("Here.\n---a2ui_JSON---\n[\x7b\"beginRendering\":\x7b\"surfaceId\":\"s1\",\"root\":\"r1\"\x7d\x7d]").data),
        none, none⟩).text = "Here.".data ∧
    (processPart ⟨[], []⟩
      ⟨"text".data,
        some (("Here.\n---a2ui_JSON---\n[\x7b\"beginRendering\":\x7b\"surfaceId\":\"s1\",\"root\":\"r1\"\x7d\x7d]").data),
        none, none⟩).messages =
      [Json.obj [("beginRendering".data,
        Json.obj [("surfaceId".data, Json.str "s1".data),
                  ("root".data, Json.str "r1".data)])]] := by
  have h := c1_delimited_text_part ⟨[], []⟩
    ⟨"text".data,
      some (("Here.\n---a2ui_JSON---\n[\x7b\"beginRendering\":\x7b\"surfaceId\":\"s1\",\"root\":\"r1\"\x7d\x7d]").data),
      none, none⟩
    ("Here.\n".data) (("\n[\x7b\"beginRendering\":\x7b\"surfaceId\":\"s1\",\"root\":\"r1\"\x7d\x7d]").data)
    rfl (by decide) (by decide)
  refine ⟨?_, ?_⟩
  · rw [h.1]; decide
  · rw [h.2.1
      [Json.obj [("beginRendering".data,
        Json.obj [("surfaceId".data, Json.str "s1".data),
                  ("root".data, Json.str "r1".data)])]]
      (by decide)]
    decide

theorem fallbackStep_of_ne (st : NormState) (h : st.messages.isEmpty = false) :
    fallbackStep st = st := by
  rw [fallbackStep, h]
  simp

/-! ### Claim C5 -/

/-- C5: normalization is total: a part whose embedded JSON fails to parse
contributes zero messages; a singleton batch of such a part yields empty
messages and just the (post-processed) prose text rather than an error; and in
a larger batch every other part still contributes its messages (whenever any
part contributed a message, the batch result is exactly the concatenation of
the per-part contributions, the failed part contributing nothing). -/
theorem c5_malformed_part_isolation (before after : Str) (ps1 ps2 : List RespPart)
    (honce : countOcc delim (before ++ (delim ++ after)) = 1)
    (hfail : jsonParse (stripFences after) = none) :
    partMsgs ⟨"text".data, some (before ++ (delim ++ after)), none, none⟩ = [] ∧
    (normalizeResp [⟨"text".data, some (before ++ (delim ++ after)), none, none⟩]).messages
      = [] ∧
    (normalizeResp [⟨"text".data, some (before ++ (delim ++ after)), none, none⟩]).text
      = postText (trimEndL before) ∧
    ((ps1 ++ ⟨"text".data, some (before ++ (delim ++ after)), none, none⟩ :: ps2).foldl
        processPart ⟨[], []⟩).messages = ((ps1 ++ ps2).map partMsgs).flatten ∧
    (((ps1 ++ ps2).map partMsgs).flatten ≠ [] →
      (normalizeResp
        (ps1 ++ ⟨"text".data, some (before ++ (delim ++ after)), none, none⟩ :: ps2)).messages
        = ((ps1 ++ ps2).map partMsgs).flatten) := by
  have hT : isTextPart ⟨"text".data, some (before ++ (delim ++ after)), none, none⟩ = true :=
    rfl
  have hD : isDataPart ⟨"text".data, some (before ++ (delim ++ after)), none, none⟩ = false :=
    isDataPart_of_text_kind _ rfl
  have hpm : partMsgs ⟨"text".data, some (before ++ (delim ++ after)), none, none⟩ = [] := by
    rw [partMsgs, hT, hD]
    show textMsgs (before ++ (delim ++ after)) ++ [] = []
    rw [textMsgs_delim before after honce, candMsgs_eq, hfail]
    rfl
  have hsingle :
      ([⟨"text".data, some (before ++ (delim ++ after)), none, none⟩] :
          List RespPart).foldl processPart ⟨[], []⟩ = ⟨[], trimEndL before⟩ := by
    rw [List.foldl_cons, List.foldl_nil, processPart_eq]
    rw [hpm, hT]
    show (⟨[] ++ [], [] ++ textText (before ++ (delim ++ after))⟩ : NormState) = _
    rw [textText_delim before after honce]
    rfl
  have hnofb : fallbackStep ⟨[], trimEndL before⟩ = ⟨[], trimEndL before⟩ := by
    rw [fallbackStep]
    have hni : includesB delim (trimEndL before) = false :=
      includesB_trimEndL_false delim before (includesB_false_of_countOne_left before after honce)
    rw [hni]
    rfl
  refine ⟨hpm, ?_, ?_, ?_, ?_⟩
  · rw [normalizeResp, hsingle, hnofb]
  · rw [normalizeResp, hsingle, hnofb]
  · rw [foldl_processPart_messages]
    simp [hpm]
  · intro hne
    have hm := foldl_processPart_messages
      (ps1 ++ ⟨"text".data, some (before ++ (delim ++ after)), none, none⟩ :: ps2) ⟨[], []⟩
    have hm2 : ((ps1 ++ ⟨"text".data, some (before ++ (delim ++ after)), none, none⟩ :: ps2).foldl
        processPart ⟨[], []⟩).messages = ((ps1 ++ ps2).map partMsgs).flatten := by
      rw [hm]; simp [hpm]
    have hie : (((ps1 ++ ps2).map partMsgs).flatten).isEmpty = false := by
      cases hx : ((ps1 ++ ps2).map partMsgs).flatten with
      | nil => exact absurd hx hne
      | cons a l => rfl
    have hskip := fallbackStep_of_ne
      ((ps1 ++ ⟨"text".data, some (before ++ (delim ++ after)), none, none⟩ :: ps2).foldl
        processPart ⟨[], []⟩) (by rw [hm2]; exact hie)
    rw [normalizeResp, hskip]
    exact hm2

/-- C5 witness: a malformed text part between a structured data part and a
plain text part; the data part's message survives. -/
theorem c5_malformed_part_isolation_witness :
    (normalizeResp [⟨"text".data, some ("Oops\n---a2ui_JSON---[1,".data), none, none⟩]).messages
      = [] ∧
    (normalizeResp
      [⟨"data".data, none, some ("application/json+a2ui".data), some (Json.obj [(['k'], Json.null)])⟩,
       ⟨"text".data, some ("Oops\n---a2ui_JSON---[1,".data), none, none⟩]).messages
      = [Json.obj [(['k'], Json.null)]] := by
  have h := c5_malformed_part_isolation ("Oops\n".data) ("[1,".data)
    [⟨"data".data, none, some ("application/json+a2ui".data), some (Json.obj [(['k'], Json.null)])⟩]
    [] (by decide) (by decide)
  refine ⟨?_, ?_⟩
  · have h2 := h.2.1
    rw [show ("Oops\n".data : Str) ++ (delim ++ "[1,".data) =
      "Oops\n---a2ui_JSON---[1,".data from by decide] at h2
    exact h2
  · have h5 := h.2.2.2.2 (by decide)
    rw [show ("Oops\n".data : Str) ++ (delim ++ "[1,".data) =
      "Oops\n---a2ui_JSON---[1,".data from by decide] at h5
    rw [show ([⟨"data".data, none, some ("application/json+a2ui".data),
          some (Json.obj [(['k'], Json.null)])⟩,
        ⟨"text".data, some ("Oops\n---a2ui_JSON---[1,".data), none, none⟩] : List RespPart) =
      [⟨"data".data, none, some ("application/json+a2ui".data),
          some (Json.obj [(['k'], Json.null)])⟩] ++
        [⟨"text".data, some ("Oops\n---a2ui_JSON---[1,".data), none, none⟩] from rfl]
    rw [h5]
    decide

/-! ### Trim and fence lemmas -/

theorem length_dropWhile_le (p : Char → Bool) (l : Str) :
    (l.dropWhile p).length ≤ l.length := by
  induction l with
  | nil => simp
  | cons c l ih =>
    rw [List.dropWhile_cons]
    cases hp : p c with
    | true => simp only [if_pos rfl]; simp; omega
    | false => simp

theorem dropWhile_ws_append (w s : Str) (hw : ∀ c ∈ w, isWs c = true) :
    (w ++ s).dropWhile isWs = s.dropWhile isWs := by
  induction w with
  | nil => simp
  | cons c w ih =>
    rw [List.cons_append, List.dropWhile_cons, hw c (by simp)]
    simp only [if_pos rfl]
    exact ih (fun d hd => hw d (by simp [hd]))

theorem dropWhile_ws_cons_neg (c : Char) (s : Str) (h : isWs c = false) :
    (c :: s).dropWhile isWs = c :: s := by
  rw [List.dropWhile_cons, h]
  simp

theorem ws_of_dropWhile_cons (c : Char) (t : Str)
    (h : (c :: t).dropWhile isWs = c :: t) : isWs c = false := by
  by_contra hc
  have hc2 : isWs c = true := by revert hc; cases isWs c <;> simp
  rw [List.dropWhile_cons, hc2] at h
  simp at h
  have h2 := congrArg List.length h
  have h3 := length_dropWhile_le isWs t
  simp at h2
  omega

theorem trimEndL_append_ws (x w : Str) (hw : ∀ c ∈ w, isWs c = true) :
    trimEndL (x ++ w) = trimEndL x := by
  rw [trimEndL, trimEndL, List.reverse_append,
    dropWhile_ws_append w.reverse x.reverse (fun c hc => hw c (List.mem_reverse.mp hc))]

theorem trimEndL_of_rev_cons (z : Str) (c : Char) (t : Str)
    (hz : z.reverse = c :: t) (h : isWs c = false) : trimEndL z = z := by
  rw [trimEndL, hz, dropWhile_ws_cons_neg c t h, ← hz, List.reverse_reverse]

theorem trim_eq_both (s : Str) (h : trimL s = s) :
    trimStartL s = s ∧ trimEndL s = s := by
  have h1 : s.takeWhile isWs ++ s.dropWhile isWs = s := by
    rw [List.takeWhile_append_dropWhile]
  have hlen2 : (trimL s).length ≤ (trimStartL s).length := by
    rw [trimL, trimEndL]
    have h4 := length_dropWhile_le isWs (trimStartL s).reverse
    simp at h4 ⊢
    exact h4
  rw [h] at hlen2
  have hlen1 := congrArg List.length h1
  rw [List.length_append] at hlen1
  have hts : (trimStartL s).length = (s.dropWhile isWs).length := rfl
  have htw : s.takeWhile isWs = [] :=
    List.eq_nil_of_length_eq_zero (by omega)
  have hst : trimStartL s = s := by
    rw [trimStartL]
    conv_rhs => rw [← h1, htw]
    rw [List.nil_append]
  refine ⟨hst, ?_⟩
  have h5 : trimEndL s = trimL s := by rw [trimL, hst]
  rw [h5, h]

theorem head_not_ws_of_trim (c : Char) (t : Str) (h : trimL (c :: t) = c :: t) :
    isWs c = false := by
  have hst := (trim_eq_both (c :: t) h).1
  exact ws_of_dropWhile_cons c t hst

theorem rev_head_not_ws_of_trim (s : Str) (c : Char) (t : Str)
    (h : trimL s = s) (hrev : s.reverse = c :: t) : isWs c = false := by
  have hend := (trim_eq_both s h).2
  rw [trimEndL, hrev] at hend
  have h2 : (c :: t).dropWhile isWs = c :: t := by
    have h3 := congrArg List.reverse hend
    rw [List.reverse_reverse] at h3
    rw [h3, hrev]
  exact ws_of_dropWhile_cons c t h2

theorem openFenceTag_json (X : Str) : openFenceTag ("```json".data ++ X) = true := rfl

theorem startsWithL_ticks (T : Str) :
    startsWithL ("```".data) ('\x60' :: ('\x60' :: ('\x60' :: T))) = true := rfl

/-! ### Claim C2 -/

/-- C2 counterexample: a candidate wrapped in bare fences (no `json` language
tag) yields no messages, while the identical document without fences (or with
the `json` tag) yields one message — refuting "with or without the optional
json language tag". -/
theorem c2_counterexample :
    (normalizeResp [⟨"text".data,
        some ("---a2ui_JSON---\n```\n[1]\n```".data), none, none⟩]).messages = [] ∧
    (normalizeResp [⟨"text".data,
        some ("---a2ui_JSON---\n[1]".data), none, none⟩]).messages = [Json.num ['1']] ∧
    (normalizeResp [⟨"text".data,
        some ("---a2ui_JSON---\n```json\n[1]\n```".data), none, none⟩]).messages
      = [Json.num ['1']] := by
  decide

/-- C2 (amended): fences are stripped only when the opening fence carries the
`json` language tag (matched case-insensitively; the closing-fence strip alone
still applies otherwise).  For a candidate of the shape
`` ```json <doc> ``` `` — with arbitrary surrounding whitespace and a trimmed,
unfenced document — the fence stripping recovers `doc` exactly, so the fenced
candidate yields the same messages as the bare document. -/
theorem c2_fence_stripping (doc ws0 ws1 ws2 ws3 : Str)
    (h0 : ∀ c ∈ ws0, isWs c = true) (h1 : ∀ c ∈ ws1, isWs c = true)
    (h2 : ∀ c ∈ ws2, isWs c = true) (h3 : ∀ c ∈ ws3, isWs c = true)
    (hne : doc ≠ []) (htr : trimL doc = doc)
    (hO : openFenceTag doc = false)
    (hC : startsWithL ("```".data) doc.reverse = false) :
    stripFences (ws0 ++ ("```json".data ++ (ws1 ++ (doc ++ (ws2 ++ ("```".data ++ ws3))))))
      = doc ∧
    candMsgs (ws0 ++ ("```json".data ++ (ws1 ++ (doc ++ (ws2 ++ ("```".data ++ ws3))))))
      = candMsgs doc := by
  obtain ⟨c, d2, rfl⟩ : ∃ c d2, doc = c :: d2 := by
    cases doc with
    | nil => exact absurd rfl hne
    | cons c d2 => exact ⟨c, d2, rfl⟩
  have hhead : isWs c = false := head_not_ws_of_trim c d2 htr
  obtain ⟨e, t, hrev⟩ : ∃ e t, (c :: d2).reverse = e :: t := by
    cases hx : (c :: d2).reverse with
    | nil =>
      have := congrArg List.length hx
      simp at this
    | cons e t => exact ⟨e, t, rfl⟩
  have hlast : isWs e = false := rev_head_not_ws_of_trim (c :: d2) e t htr hrev
  -- the candidate after the outer trim
  have hstart :
      trimStartL (ws0 ++ ("```json".data ++ (ws1 ++ ((c :: d2) ++ (ws2 ++ ("```".data ++ ws3))))))
        = "```json".data ++ (ws1 ++ ((c :: d2) ++ (ws2 ++ ("```".data ++ ws3)))) := by
    rw [trimStartL, dropWhile_ws_append ws0 _ h0]
    rfl
  have hassoc :
      ("```json".data ++ (ws1 ++ ((c :: d2) ++ (ws2 ++ ("```".data ++ ws3)))) : Str)
        = ("```json".data ++ (ws1 ++ ((c :: d2) ++ (ws2 ++ "```".data)))) ++ ws3 := by
    simp
  have hrevY :
      (("```json".data ++ (ws1 ++ ((c :: d2) ++ (ws2 ++ "```".data)))) : Str).reverse
        = '\x60' :: ('\x60' :: ('\x60' ::
            ((ws2.reverse ++ (c :: d2).reverse) ++ (ws1.reverse ++ "```json".data.reverse)))) := by
    simp [List.reverse_append]
  have hend :
      trimEndL (("```json".data ++ (ws1 ++ ((c :: d2) ++ (ws2 ++ "```".data)))) ++ ws3)
        = "```json".data ++ (ws1 ++ ((c :: d2) ++ (ws2 ++ "```".data))) := by
    rw [trimEndL_append_ws _ ws3 h3]
    exact trimEndL_of_rev_cons _ _ _ hrevY (by decide)
  have htrimF :
      trimL (ws0 ++ ("```json".data ++ (ws1 ++ ((c :: d2) ++ (ws2 ++ ("```".data ++ ws3))))))
        = "```json".data ++ (ws1 ++ ((c :: d2) ++ (ws2 ++ "```".data))) := by
    rw [trimL, hstart, hassoc, hend]
  -- opening-fence strip
  have hopen :
      stripOpenFence ("```json".data ++ (ws1 ++ ((c :: d2) ++ (ws2 ++ "```".data))))
        = (c :: d2) ++ (ws2 ++ "```".data) := by
    rw [stripOpenFence,
      if_pos (openFenceTag_json (ws1 ++ ((c :: d2) ++ (ws2 ++ "```".data))))]
    show (ws1 ++ ((c :: d2) ++ (ws2 ++ "```".data))).dropWhile isWs = _
    rw [dropWhile_ws_append ws1 _ h1]
    exact dropWhile_ws_cons_neg c _ hhead
  -- closing-fence strip
  have hrevD : ((c :: d2) ++ (ws2 ++ "```".data) : Str).reverse
      = '\x60' :: ('\x60' :: ('\x60' :: (ws2.reverse ++ (c :: d2).reverse))) := by
    simp [List.reverse_append]
  have hclose :
      stripCloseFence ((c :: d2) ++ (ws2 ++ "```".data)) = c :: d2 := by
    rw [stripCloseFence, hrevD,
      if_pos (startsWithL_ticks (ws2.reverse ++ (c :: d2).reverse))]
    show ((ws2.reverse ++ (c :: d2).reverse).dropWhile isWs).reverse = c :: d2
    rw [dropWhile_ws_append ws2.reverse _ (fun x hx => h2 x (List.mem_reverse.mp hx)), hrev,
      dropWhile_ws_cons_neg e t hlast, ← hrev, List.reverse_reverse]
  have hF :
      stripFences (ws0 ++ ("```json".data ++ (ws1 ++ ((c :: d2) ++ (ws2 ++ ("```".data ++ ws3))))))
        = c :: d2 := by
    rw [stripFences, htrimF, hopen, hclose, htr]
  have hdoc : stripFences (c :: d2) = c :: d2 := by
    have ho2 : stripOpenFence (c :: d2) = c :: d2 := by
      rw [stripOpenFence, if_neg (by rw [hO]; simp)]
    have hc3 : stripCloseFence (c :: d2) = c :: d2 := by
      rw [stripCloseFence, if_neg (by rw [hC]; simp)]
    rw [stripFences, htr, ho2, hc3, htr]
  refine ⟨hF, ?_⟩
  rw [candMsgs, candMsgs, hF, hdoc, htrimF, htr]
  rfl

/-- C2 (amended) witness: the with-tag fenced candidate of the sanity example,
with newline whitespace on both sides of the document. -/
theorem c2_fence_stripping_witness :
    stripFences ("\n```json\n[1]\n```".data) = "[1]".data ∧
    candMsgs ("\n```json\n[1]\n```".data) = candMsgs ("[1]".data) := by
  have h := c2_fence_stripping ("[1]".data) ['\n'] ['\n'] ['\n'] []
    (by decide) (by decide) (by decide) (by decide)
    (by decide) (by decide) (by decide) (by decide)
  refine ⟨?_, ?_⟩
  · have h1 := h.1
    rw [show ((['\n'] : Str) ++ ("```json".data ++ (['\n'] ++ ("[1]".data ++ (['\n'] ++ ("```".data ++ [])))))) =
      "\n```json\n[1]\n```".data from by decide] at h1
    exact h1
  · have h2 := h.2
    rw [show ((['\n'] : Str) ++ ("```json".data ++ (['\n'] ++ ("[1]".data ++ (['\n'] ++ ("```".data ++ [])))))) =
      "\n```json\n[1]\n```".data from by decide] at h2
    exact h2

/-! ### Claim C6 -/

/-- C6: when the per-part scan produced no messages but the concatenated text
contains the delimiter (reconstructed across part boundaries, and occurring
exactly once), the extraction is repeated once against the concatenated text:
the pre-delimiter prefix (trailing whitespace trimmed, then post-processed)
becomes the output text and the post-delimiter suffix is fence-stripped and
parsed into the messages. -/
theorem c6_fallback_extraction (parts : List RespPart) (before after : Str)
    (hmsgs : (parts.foldl processPart ⟨[], []⟩).messages = [])
    (htext : (parts.foldl processPart ⟨[], []⟩).text = before ++ (delim ++ after))
    (honce : countOcc delim (before ++ (delim ++ after)) = 1) :
    (normalizeResp parts).messages = candMsgs after ∧
    (normalizeResp parts).text = postText (trimEndL before) := by
  have hfb : fallbackStep (parts.foldl processPart ⟨[], []⟩) =
      ⟨candMsgs after, trimEndL before⟩ := by
    rw [fallbackStep, hmsgs, htext, includesB_delim_decomp before after,
      split2_delim before after honce]
    rfl
  constructor
  · rw [normalizeResp, hfb]
  · rw [normalizeResp, hfb]

/-- C6 witness: the delimiter split across two text parts is reassembled by
the fallback, which recovers the embedded array. -/
theorem c6_fallback_extraction_witness :
    (normalizeResp [⟨"text".data, some ("He---a2ui".data), none, none⟩,
                    ⟨"text".data, some ("_JSON---[1]".data), none, none⟩]).messages
      = [Json.num ['1']] ∧
    (normalizeResp [⟨"text".data, some ("He---a2ui".data), none, none⟩,
                    ⟨"text".data, some ("_JSON---[1]".data), none, none⟩]).text
      = "He".data := by
  have h := c6_fallback_extraction
    [⟨"text".data, some ("He---a2ui".data), none, none⟩,
     ⟨"text".data, some ("_JSON---[1]".data), none, none⟩]
    ("He".data) ("[1]".data) (by decide) (by decide) (by decide)
  refine ⟨?_, ?_⟩
  · rw [h.1]; decide
  · rw [h.2]; decide

/-! ### Session lemmas -/

theorem doSubmit_guard (s : Session) (p : Str) (isRef : Bool) (out : FetchOutcome)
    (hg : ((trimL p).isEmpty || (s.appState == AppState.thinking)) = true) :
    doSubmit s p isRef out = s := by
  simp only [doSubmit]
  rw [if_pos hg]

theorem submitGuard_false (s : Session) (p : Str)
    (hp : trimL p ≠ []) (hs : s.appState ≠ .thinking) :
    ((trimL p).isEmpty || (s.appState == AppState.thinking)) = false := by
  have h1 : (trimL p).isEmpty = false := by
    cases h : trimL p with
    | nil => exact absurd h hp
    | cons c t => rfl
  have h2 : (s.appState == AppState.thinking) = false := by
    cases hx : s.appState with
    | thinking => exact absurd hx hs
    | idle => rfl
    | rendered => rfl
    | error => rfl
  rw [h1, h2]
  rfl

theorem doSubmit_netFail (s : Session) (p : Str) (isRef : Bool) (msg : Str)
    (hg : ((trimL p).isEmpty || (s.appState == AppState.thinking)) = false) :
    doSubmit s p isRef (.netFail msg) =
      ⟨.error, if isRef then s.a2uiMessages else [],
       if isRef then s.history else [], trimL p, msg⟩ := by
  simp only [doSubmit]
  rw [if_neg (by rw [hg]; simp)]

theorem doSubmit_httpFail (s : Session) (p : Str) (isRef : Bool) (status : Nat)
    (hg : ((trimL p).isEmpty || (s.appState == AppState.thinking)) = false) :
    doSubmit s p isRef (.httpFail status) =
      ⟨.error, if isRef then s.a2uiMessages else [],
       if isRef then s.history else [], trimL p,
       "Server error: ".data ++ (Nat.repr status).data⟩ := by
  simp only [doSubmit]
  rw [if_neg (by rw [hg]; simp)]

theorem doSubmit_ok_err (s : Session) (p : Str) (isRef : Bool) (d : ApiData)
    (hg : ((trimL p).isEmpty || (s.appState == AppState.thinking)) = false)
    (he : (d.error.getD []).isEmpty = false) :
    doSubmit s p isRef (.ok d) =
      ⟨.error, if isRef then s.a2uiMessages else [],
       if isRef then s.history else [], trimL p, d.error.getD []⟩ := by
  simp only [doSubmit]
  rw [if_neg (by rw [hg]; simp), if_pos (by rw [he]; simp)]

theorem doSubmit_ok_noMsgs (s : Session) (p : Str) (isRef : Bool) (d : ApiData)
    (hg : ((trimL p).isEmpty || (s.appState == AppState.thinking)) = false)
    (he : (d.error.getD []).isEmpty = true)
    (hm : d.messages = none ∨ d.messages = some []) :
    doSubmit s p isRef (.ok d) =
      ⟨.error, if isRef then s.a2uiMessages else [],
       if isRef then s.history else [], trimL p, noUiMsg⟩ := by
  simp only [doSubmit]
  rw [if_neg (by rw [hg]; simp), if_neg (by rw [he]; simp)]
  rcases hm with hm | hm <;> rw [hm]

theorem doSubmit_ok_success (s : Session) (p : Str) (isRef : Bool) (d : ApiData)
    (m : Json) (ms : List Json)
    (hg : ((trimL p).isEmpty || (s.appState == AppState.thinking)) = false)
    (he : (d.error.getD []).isEmpty = true)
    (hm : d.messages = some (m :: ms)) :
    doSubmit s p isRef (.ok d) =
      ⟨.rendered, m :: ms,
       (if isRef then s.history else []) ++
         [⟨"user".data, trimL p⟩,
          ⟨"assistant".data, assistantContent d.text (m :: ms)⟩],
       trimL p, []⟩ := by
  simp only [doSubmit]
  rw [if_neg (by rw [hg]; simp), if_neg (by rw [he]; simp)]
  rw [hm]

/-- The state invariant maintained by the reachable page states: the thread
length is even, and on the idle screen both the thread and the rendered
messages are empty. -/
def SessionInv (s : Session) : Prop :=
  Even s.history.length ∧ (s.appState = .idle → s.history = [] ∧ s.a2uiMessages = [])

theorem reachable_inv (s : Session) (h : Reachable s) : SessionInv s := by
  induction h with
  | init => exact ⟨⟨0, rfl⟩, fun _ => ⟨rfl, rfl⟩⟩
  | submitNew s p out hr hidle ih =>
    by_cases hg : ((trimL p).isEmpty || (s.appState == AppState.thinking)) = true
    · rw [doSubmit_guard s p false out hg]; exact ih
    · have hg2 : ((trimL p).isEmpty || (s.appState == AppState.thinking)) = false := by
        revert hg; cases ((trimL p).isEmpty || (s.appState == AppState.thinking)) <;> simp
      obtain ⟨hh, hm⟩ := ih.2 hidle
      cases out with
      | netFail msg =>
        rw [doSubmit_netFail s p false msg hg2]
        exact ⟨⟨0, rfl⟩, fun hx => by cases hx⟩
      | httpFail status =>
        rw [doSubmit_httpFail s p false status hg2]
        exact ⟨⟨0, rfl⟩, fun hx => by cases hx⟩
      | ok d =>
        cases he : (d.error.getD []).isEmpty with
        | false =>
          rw [doSubmit_ok_err s p false d hg2 he]
          exact ⟨⟨0, rfl⟩, fun hx => by cases hx⟩
        | true =>
          cases hdm : d.messages with
          | none =>
            rw [doSubmit_ok_noMsgs s p false d hg2 he (Or.inl hdm)]
            exact ⟨⟨0, rfl⟩, fun hx => by cases hx⟩
          | some l =>
            cases l with
            | nil =>
              rw [doSubmit_ok_noMsgs s p false d hg2 he (Or.inr hdm)]
              exact ⟨⟨0, rfl⟩, fun hx => by cases hx⟩
            | cons m ms =>
              rw [doSubmit_ok_success s p false d m ms hg2 he hdm]
              exact ⟨⟨1, rfl⟩, fun hx => by cases hx⟩
  | submitRef s p out hr hrend ih =>
    by_cases hg : ((trimL p).isEmpty || (s.appState == AppState.thinking)) = true
    · rw [doSubmit_guard s p true out hg]; exact ih
    · have hg2 : ((trimL p).isEmpty || (s.appState == AppState.thinking)) = false := by
        revert hg; cases ((trimL p).isEmpty || (s.appState == AppState.thinking)) <;> simp
      cases out with
      | netFail msg =>
        rw [doSubmit_netFail s p true msg hg2]
        exact ⟨ih.1, fun hx => by cases hx⟩
      | httpFail status =>
        rw [doSubmit_httpFail s p true status hg2]
        exact ⟨ih.1, fun hx => by cases hx⟩
      | ok d =>
        cases he : (d.error.getD []).isEmpty with
        | false =>
          rw [doSubmit_ok_err s p true d hg2 he]
          exact ⟨ih.1, fun hx => by cases hx⟩
        | true =>
          cases hdm : d.messages with
          | none =>
            rw [doSubmit_ok_noMsgs s p true d hg2 he (Or.inl hdm)]
            exact ⟨ih.1, fun hx => by cases hx⟩
          | some l =>
            cases l with
            | nil =>
              rw [doSubmit_ok_noMsgs s p true d hg2 he (Or.inr hdm)]
              exact ⟨ih.1, fun hx => by cases hx⟩
            | cons m ms =>
              rw [doSubmit_ok_success s p true d m ms hg2 he hdm]
              refine ⟨?_, fun hx => by cases hx⟩
              show Even (s.history ++ [_, _]).length
              rw [List.length_append]
              obtain ⟨k, hk⟩ := ih.1
              exact ⟨k + 1, by simp; omega⟩
  | doReset s hr ih =>
    exact ⟨⟨0, rfl⟩, fun _ => ⟨rfl, rfl⟩⟩

/-! ### Claim C3 -/

/-- C3 counterexample: a turn with zero messages but informative, non-empty
text is nevertheless surfaced as the fatal "no UI" error — the `submit`
handler tests only `data.messages`, never the text. -/
theorem c3_counterexample :
    (doSubmit initSession ("hi".data) false
        (.ok ⟨none, some [], "a detailed textual answer".data⟩)).appState = .error ∧
    (doSubmit initSession ("hi".data) false
        (.ok ⟨none, some [], "a detailed textual answer".data⟩)).errorMsg = noUiMsg := by
  decide

/-- C3 (amended): a turn is surfaced as the fatal "no UI produced" error
exactly when the response carries no `error` and its messages list is absent
or empty — regardless of whether the text is empty or informative. -/
theorem c3_no_ui_error_iff (s : Session) (p : Str) (isRef : Bool) (d : ApiData)
    (hp : trimL p ≠ []) (hs : s.appState ≠ .thinking)
    (herr : (d.error.getD []).isEmpty = true) :
    ((doSubmit s p isRef (.ok d)).appState = .error ∧
      (doSubmit s p isRef (.ok d)).errorMsg = noUiMsg) ↔
    (d.messages = none ∨ d.messages = some []) := by
  have hg := submitGuard_false s p hp hs
  constructor
  · intro hst
    cases hdm : d.messages with
    | none => exact Or.inl rfl
    | some l =>
      cases l with
      | nil => exact Or.inr rfl
      | cons m ms =>
        exfalso
        have h2 := hst.1
        rw [doSubmit_ok_success s p isRef d m ms hg herr hdm] at h2
        cases h2
  · intro hm
    rw [doSubmit_ok_noMsgs s p isRef d hg herr hm]
    exact ⟨rfl, rfl⟩

/-- C3 (amended) witness: an absent messages field produces the fatal error. -/
theorem c3_no_ui_error_iff_witness :
    (doSubmit initSession ("hi".data) false (.ok ⟨none, none, []⟩)).appState = .error ∧
    (doSubmit initSession ("hi".data) false (.ok ⟨none, none, []⟩)).errorMsg = noUiMsg :=
  (c3_no_ui_error_iff initSession ("hi".data) false ⟨none, none, []⟩
    (by decide) (by decide) (by decide)).mpr (Or.inl rfl)

/-! ### Claim C7 -/

/-- C7: in every reachable page state offering the submission (new-UI submits
from the idle screen, refinements from the rendered screen), a successful turn
appends exactly one user turn paired with one assistant turn — leaving the
thread length even — while a failed turn leaves the thread exactly as it was,
so the caller may retry with the same history state. -/
theorem c7_thread_pairing (s : Session) (p : Str) (isRef : Bool) (out : FetchOutcome)
    (hreach : Reachable s)
    (hwire : if isRef = true then s.appState = .rendered else s.appState = .idle) :
    (∀ d m ms, out = .ok d → (d.error.getD []).isEmpty = true →
      d.messages = some (m :: ms) → trimL p ≠ [] →
      (doSubmit s p isRef out).history = (if isRef then s.history else []) ++
        [⟨"user".data, trimL p⟩,
         ⟨"assistant".data, assistantContent d.text (m :: ms)⟩] ∧
      Even (doSubmit s p isRef out).history.length) ∧
    (turnSuccess out = false → (doSubmit s p isRef out).history = s.history) := by
  have hinv := reachable_inv s hreach
  have hns : s.appState ≠ .thinking := by
    cases hb : isRef with
    | true => rw [hb] at hwire; simp at hwire; rw [hwire]; intro hx; cases hx
    | false => rw [hb] at hwire; simp at hwire; rw [hwire]; intro hx; cases hx
  constructor
  · intro d m ms hout he hdm hp
    have hg := submitGuard_false s p hp hns
    rw [hout, doSubmit_ok_success s p isRef d m ms hg he hdm]
    refine ⟨rfl, ?_⟩
    show Even ((if isRef then s.history else []) ++ [_, _]).length
    rw [List.length_append]
    cases hb : isRef with
    | true =>
      obtain ⟨k, hk⟩ := hinv.1
      rw [if_pos rfl]
      exact ⟨k + 1, by simp; omega⟩
    | false => exact ⟨1, by simp⟩
  · intro hfail
    by_cases hg : ((trimL p).isEmpty || (s.appState == AppState.thinking)) = true
    · rw [doSubmit_guard s p isRef out hg]
    · have hg2 : ((trimL p).isEmpty || (s.appState == AppState.thinking)) = false := by
        revert hg; cases ((trimL p).isEmpty || (s.appState == AppState.thinking)) <;> simp
      have hbase : (if isRef then s.history else []) = s.history := by
        cases hb : isRef with
        | true => rw [if_pos rfl]
        | false =>
          rw [if_neg (by simp)]
          rw [hb] at hwire; simp at hwire
          exact ((hinv.2 hwire).1).symm
      cases out with
      | netFail msg => rw [doSubmit_netFail s p isRef msg hg2]; exact hbase
      | httpFail status => rw [doSubmit_httpFail s p isRef status hg2]; exact hbase
      | ok d =>
        cases he : (d.error.getD []).isEmpty with
        | false => rw [doSubmit_ok_err s p isRef d hg2 he]; exact hbase
        | true =>
          cases hdm : d.messages with
          | none => rw [doSubmit_ok_noMsgs s p isRef d hg2 he (Or.inl hdm)]; exact hbase
          | some l =>
            cases l with
            | nil => rw [doSubmit_ok_noMsgs s p isRef d hg2 he (Or.inr hdm)]; exact hbase
            | cons m ms =>
              exfalso
              rw [turnSuccess, he, hdm] at hfail
              simp at hfail

/-- C7 witness: a successful first turn from the idle screen appends the
user/assistant pair, and a failed turn leaves the (empty) thread unchanged. -/
theorem c7_thread_pairing_witness :
    (doSubmit initSession ("hi".data) false
        (.ok ⟨none, some [Json.null], []⟩)).history =
      [⟨"user".data, "hi".data⟩, ⟨"assistant".data, "[null]".data⟩] ∧
    Even (doSubmit initSession ("hi".data) false
        (.ok ⟨none, some [Json.null], []⟩)).history.length ∧
    (doSubmit initSession ("hi".data) false (.netFail ['x'])).history =
      initSession.history := by
  have h := c7_thread_pairing initSession ("hi".data) false
    (.ok ⟨none, some [Json.null], []⟩) Reachable.init (by simp [initSession])
  have h2 := (h.1 ⟨none, some [Json.null], []⟩ Json.null [] rfl (by decide) rfl (by decide))
  have h3 := c7_thread_pairing initSession ("hi".data) false (.netFail ['x'])
    Reachable.init (by simp [initSession])
  refine ⟨?_, h2.2, h3.2 (by decide)⟩
  rw [h2.1]
  decide

/-! ### Claim C8 -/

/-- C8: from every reachable page state offering the submission, a transport
failure (rejected fetch: timeout or connection failure) or a non-ok HTTP
status fails the turn without mutating the conversation thread or the
currently rendered messages: both equal their values before the attempt. -/
theorem c8_transport_failure_preserves (s : Session) (p : Str) (isRef : Bool)
    (out : FetchOutcome) (hreach : Reachable s)
    (hwire : if isRef = true then s.appState = .rendered else s.appState = .idle)
    (hfail : (∃ msg, out = .netFail msg) ∨ (∃ status, out = .httpFail status)) :
    (doSubmit s p isRef out).history = s.history ∧
    (doSubmit s p isRef out).a2uiMessages = s.a2uiMessages := by
  have hinv := reachable_inv s hreach
  by_cases hg : ((trimL p).isEmpty || (s.appState == AppState.thinking)) = true
  · rw [doSubmit_guard s p isRef out hg]
    exact ⟨rfl, rfl⟩
  · have hg2 : ((trimL p).isEmpty || (s.appState == AppState.thinking)) = false := by
      revert hg; cases ((trimL p).isEmpty || (s.appState == AppState.thinking)) <;> simp
    have hpair : (if isRef then s.history else []) = s.history ∧
        (if isRef then s.a2uiMessages else []) = s.a2uiMessages := by
      cases hb : isRef with
      | true => exact ⟨rfl, rfl⟩
      | false =>
        rw [hb] at hwire; simp at hwire
        obtain ⟨hh, hm⟩ := hinv.2 hwire
        exact ⟨by rw [if_neg (by simp), hh], by rw [if_neg (by simp), hm]⟩
    rcases hfail with ⟨msg, rfl⟩ | ⟨status, rfl⟩
    · rw [doSubmit_netFail s p isRef msg hg2]
      exact ⟨hpair.1, hpair.2⟩
    · rw [doSubmit_httpFail s p isRef status hg2]
      exact ⟨hpair.1, hpair.2⟩

/-- C8 witness: a timeout on the first turn leaves the initial (empty) thread
and surface untouched. -/
theorem c8_transport_failure_preserves_witness :
    (doSubmit initSession ("hi".data) false (.netFail ("timeout".data))).history =
      initSession.history ∧
    (doSubmit initSession ("hi".data) false (.netFail ("timeout".data))).a2uiMessages =
      initSession.a2uiMessages :=
  c8_transport_failure_preserves initSession ("hi".data) false (.netFail ("timeout".data))
    Reachable.init (by simp [initSession]) (Or.inl ⟨"timeout".data, rfl⟩)

/-! ### Claim C9 -/

theorem findBegin_first (m : Json) (ms2 : List Json) :
    ∀ ms1 : List Json, (∀ x ∈ ms1, jsIn ("beginRendering".data) x = some false) →
      jsIn ("beginRendering".data) m = some true →
      findBegin (ms1 ++ m :: ms2) = some (some m) := by
  intro ms1
  induction ms1 with
  | nil =>
    intro _ hm
    rw [List.nil_append, findBegin, hm]
  | cons x ms1 ih =>
    intro hnone hm
    rw [List.cons_append, findBegin, hnone x (by simp)]
    exact ih (fun y hy => hnone y (by simp [hy])) hm

/-- Counterexample to the literal reading of C9: a primitive member ahead of
the first `BeginRendering` message makes `"beginRendering" in m` throw a
`TypeError`, which propagates out of `messages.find` into the renderer's
`catch`, so nothing is rendered at all — the surface chosen is not the first
`BeginRendering`'s, because no surface is chosen. -/
theorem c9_counterexample :
    jsIn ("beginRendering".data)
        (Json.obj [("beginRendering".data,
          Json.obj [("surfaceId".data, Json.str "s1".data)])]) = some true ∧
    jsIn ("beginRendering".data)
        (Json.obj [("beginRendering".data,
          Json.obj [("surfaceId".data, Json.str "s2".data)])]) = some true ∧
    renderSelect
        [Json.num ['1'],
         Json.obj [("beginRendering".data,
           Json.obj [("surfaceId".data, Json.str "s1".data)])],
         Json.obj [("beginRendering".data,
           Json.obj [("surfaceId".data, Json.str "s2".data)])]] = .aborted ∧
    chosenSurfaceId
        [Json.num ['1'],
         Json.obj [("beginRendering".data,
           Json.obj [("surfaceId".data, Json.str "s1".data)])],
         Json.obj [("beginRendering".data,
           Json.obj [("surfaceId".data, Json.str "s2".data)])]] = none := by
  decide

/-- C9 (amended: provided the scan ahead of it does not throw).  When every
message ahead of the first `BeginRendering` message answers the `in` test
without a `TypeError` — it is an object or array without the key — the
renderer selects the first `BeginRendering` message in list order: the
payload, hence the `surfaceId` (and `root`) read from it, comes from that
first message, and every later one is ignored by the selection.  A primitive
ahead of it instead throws and aborts rendering (see the counterexample). -/
theorem c9_first_begin_rendering (ms1 : List Json) (m : Json) (ms2 : List Json)
    (hnone : ∀ x ∈ ms1, jsIn ("beginRendering".data) x = some false)
    (hm : jsIn ("beginRendering".data) m = some true)
    (hmore : ∃ m2 ∈ ms2, jsIn ("beginRendering".data) m2 = some true) :
    findBegin (ms1 ++ m :: ms2) = some (some m) ∧
    renderSelect (ms1 ++ m :: ms2) =
      (match jsGet m ("beginRendering".data) with
       | some pl => if jsonTruthy pl then RenderSel.selected pl else RenderSel.noSurface
       | none => RenderSel.noSurface) ∧
    (∀ pl, jsGet m ("beginRendering".data) = some pl → jsonTruthy pl = true →
      chosenSurfaceId (ms1 ++ m :: ms2) = jsGet pl ("surfaceId".data)) := by
  have hfb : findBegin (ms1 ++ m :: ms2) = some (some m) :=
    findBegin_first m ms2 ms1 hnone hm
  refine ⟨hfb, ?_, ?_⟩
  · rw [renderSelect, hfb]
  · intro pl hpl htru
    have hsel : renderSelect (ms1 ++ m :: ms2) = .selected pl := by
      rw [renderSelect, hfb]
      show (match jsGet m ("beginRendering".data) with
        | some p => if jsonTruthy p = true then RenderSel.selected p else RenderSel.noSurface
        | none => RenderSel.noSurface) = RenderSel.selected pl
      rw [hpl]
      show (if jsonTruthy pl = true then RenderSel.selected pl else RenderSel.noSurface) =
        RenderSel.selected pl
      rw [if_pos htru]
    rw [chosenSurfaceId, hsel]

/-- C9 witness: a keyless object ahead of two `BeginRendering` messages; the
selected surface id is the first one's. -/
theorem c9_first_begin_rendering_witness :
    chosenSurfaceId
      [Json.obj [],
       Json.obj [("beginRendering".data,
         Json.obj [("surfaceId".data, Json.str "s1".data),
                   ("root".data, Json.str "r1".data)])],
       Json.obj [("beginRendering".data,
         Json.obj [("surfaceId".data, Json.str "s2".data)])]]
      = some (Json.str "s1".data) := by
  have h := c9_first_begin_rendering
    [Json.obj []]
    (Json.obj [("beginRendering".data,
       Json.obj [("surfaceId".data, Json.str "s1".data),
                 ("root".data, Json.str "r1".data)])])
    [Json.obj [("beginRendering".data,
       Json.obj [("surfaceId".data, Json.str "s2".data)])]]
    (by intro x hx; simp at hx; rw [hx]; decide)
    (by decide)
    ⟨Json.obj [("beginRendering".data, Json.obj [("surfaceId".data, Json.str "s2".data)])],
      by simp, by decide⟩
  have h3 := h.2.2
    (Json.obj [("surfaceId".data, Json.str "s1".data), ("root".data, Json.str "r1".data)])
    (by decide) (by decide)
  rw [show ([Json.obj [],
      Json.obj [("beginRendering".data,
        Json.obj [("surfaceId".data, Json.str "s1".data),
                  ("root".data, Json.str "r1".data)])],
      Json.obj [("beginRendering".data,
        Json.obj [("surfaceId".data, Json.str "s2".data)])]] : List Json) =
    [Json.obj []] ++
      (Json.obj [("beginRendering".data,
        Json.obj [("surfaceId".data, Json.str "s1".data),
                  ("root".data, Json.str "r1".data)])]) ::
      [Json.obj [("beginRendering".data,
        Json.obj [("surfaceId".data, Json.str "s2".data)])]] from rfl]
  rw [h3]
  decide

/-! ### Claim C10 -/

/-- C10: for every request body (a JSON object) with no `prompt` member, a
non-string `prompt`, or a whitespace-only `prompt`, the generate route answers
with status 400 and the message "prompt is required" instead of building the
outbound agent request. -/
theorem c10_prompt_validation (kvs : List (Str × Json))
    (h : jsGet (Json.obj kvs) ("prompt".data) = none ∨
         (∃ v, jsGet (Json.obj kvs) ("prompt".data) = some v ∧ ∀ t, v ≠ Json.str t) ∨
         (∃ t, jsGet (Json.obj kvs) ("prompt".data) = some (Json.str t) ∧ trimL t = [])) :
    routeStart (Json.obj kvs) = .respond 400 ("prompt is required".data) := by
  rcases h with h | ⟨v, hv, hns⟩ | ⟨t, ht, htr⟩
  · rw [routeStart, h]
  · rw [routeStart, hv]
    cases v with
    | str t => exact absurd rfl (hns t)
    | null => rfl
    | bool b => cases b <;> rfl
    | num tok =>
      show (if ¬ jsonTruthy (Json.num tok) = true
          then RouteAction.respond 400 ("prompt is required".data)
          else RouteAction.respond 400 ("prompt is required".data)) = _
      exact ite_self _
    | arr xs => rfl
    | obj fs => rfl
  · rw [routeStart, ht]
    cases t with
    | nil => rfl
    | cons c t2 =>
      show (if (trimL (c :: t2)).isEmpty = true
          then RouteAction.respond 400 ("prompt is required".data)
          else RouteAction.callAgent (trimL (c :: t2))) = _
      rw [htr]
      rfl

/-- C10 witness: a whitespace-only prompt is rejected with 400. -/
theorem c10_prompt_validation_witness :
    routeStart (Json.obj [("prompt".data, Json.str "   ".data)]) =
      .respond 400 ("prompt is required".data) :=
  c10_prompt_validation [("prompt".data, Json.str "   ".data)]
    (Or.inr (Or.inr ⟨"   ".data, by decide, by decide⟩))

/-! ### Serialization round trip: strings -/

theorem parseHex_hexDigit : ∀ n < 16, parseHex (hexDigit n) = some n := by decide

theorem escMap_ne_u (e ec : Char) (he : escMap e = some ec) : ¬ e = 'u' := by
  intro h
  rw [h, show escMap 'u' = none from rfl] at he
  cases he

theorem parseStrBody_esc (e ec : Char) (he : escMap e = some ec) (X tail rest : Str)
    (h : parseStrBody X = some (tail, rest)) :
    parseStrBody ('\\' :: e :: X) = some (ec :: tail, rest) := by
  have hnu : ¬ e = 'u' := escMap_ne_u e ec he
  simp [parseStrBody, parseEsc, consFst, hnu, he, h]

theorem parseStrBody_plain (c : Char) (h1 : ¬ c = '"') (h2 : ¬ c = '\\')
    (h3 : ¬ c.toNat < 32) (X tail rest : Str) (h : parseStrBody X = some (tail, rest)) :
    parseStrBody (c :: X) = some (c :: tail, rest) := by
  simp [parseStrBody, consFst, h1, h2, h3, h]

theorem parseStrBody_u00 (c : Char) (hc : c.toNat < 32) (X tail rest : Str)
    (h : parseStrBody X = some (tail, rest)) :
    parseStrBody
        ('\\' :: 'u' :: '0' :: '0' ::
          hexDigit (c.toNat / 16) :: hexDigit (c.toNat % 16) :: X)
      = some (c :: tail, rest) := by
  have e1 : parseHex (hexDigit (c.toNat / 16)) = some (c.toNat / 16) :=
    parseHex_hexDigit _ (by omega)
  have e2 : parseHex (hexDigit (c.toNat % 16)) = some (c.toNat % 16) :=
    parseHex_hexDigit _ (by omega)
  simp [parseStrBody, parseEsc, parseU, hex4, consFst,
    show parseHex '0' = some 0 from rfl, e1, e2, h]
  rw [show c.toNat / 16 * 16 + c.toNat % 16 = c.toNat by omega, Char.ofNat_toNat]

theorem parseStrBody_escChar (s : Str) : ∀ rest : Str,
    parseStrBody (s.flatMap escChar ++ ('"' :: rest)) = some (s, rest) := by
  induction s with
  | nil => intro rest; rfl
  | cons c s ih =>
    intro rest
    rw [List.flatMap_cons, List.append_assoc]
    by_cases h1 : c = '"'
    · subst h1
      exact parseStrBody_esc '"' '"' rfl _ s rest (ih rest)
    by_cases h2 : c = '\\'
    · subst h2
      exact parseStrBody_esc '\\' '\\' rfl _ s rest (ih rest)
    by_cases h3 : c = '\x08'
    · subst h3
      exact parseStrBody_esc 'b' '\x08' rfl _ s rest (ih rest)
    by_cases h4 : c = '\x0c'
    · subst h4
      exact parseStrBody_esc 'f' '\x0c' rfl _ s rest (ih rest)
    by_cases h5 : c = '\n'
    · subst h5
      exact parseStrBody_esc 'n' '\n' rfl _ s rest (ih rest)
    by_cases h6 : c = '\r'
    · subst h6
      exact parseStrBody_esc 'r' '\r' rfl _ s rest (ih rest)
    by_cases h7 : c = '\t'
    · subst h7
      exact parseStrBody_esc 't' '\t' rfl _ s rest (ih rest)
    by_cases h8 : c.toNat < 32
    · have he : escChar c =
          ['\\', 'u', '0', '0', hexDigit (c.toNat / 16), hexDigit (c.toNat % 16)] := by
        rw [escChar, if_neg h1, if_neg h2, if_neg h3, if_neg h4, if_neg h5, if_neg h6,
          if_neg h7, if_pos h8]
      rw [he]
      exact parseStrBody_u00 c h8 _ s rest (ih rest)
    · have he : escChar c = [c] := by
        rw [escChar, if_neg h1, if_neg h2, if_neg h3, if_neg h4, if_neg h5, if_neg h6,
          if_neg h7, if_neg h8]
      rw [he]
      exact parseStrBody_plain c h1 h2 h8 _ s rest (ih rest)

/-! ### Serialization round trip: numbers -/

theorem numSafe_head (c : Char) (r : Str) (h : numSafe (c :: r) = true) :
    isDigitCh c = false ∧ (c = '.' → False) ∧ (c = 'e' → False) ∧ (c = 'E' → False) := by
  simp only [numSafe, Bool.not_eq_true', Bool.or_eq_false_iff] at h
  refine ⟨h.1.1.1, ?_, ?_, ?_⟩
  · intro hc; rw [hc] at h; exact absurd h.1.1.2 (by decide)
  · intro hc; rw [hc] at h; exact absurd h.1.2 (by decide)
  · intro hc; rw [hc] at h; exact absurd h.2 (by decide)

theorem takeWhile_digits_safe (rest : Str) (h : numSafe rest = true) :
    rest.takeWhile isDigitCh = [] := by
  cases rest with
  | nil => rfl
  | cons c r =>
    rw [List.takeWhile_cons, (numSafe_head c r h).1]
    rfl

theorem dropWhile_digits_safe (rest : Str) (h : numSafe rest = true) :
    rest.dropWhile isDigitCh = rest := by
  cases rest with
  | nil => rfl
  | cons c r =>
    rw [List.dropWhile_cons, (numSafe_head c r h).1]
    rfl

theorem parseFrac_safe (rest : Str) (h : numSafe rest = true) :
    parseFrac rest = ([], rest) := by
  cases rest with
  | nil => rfl
  | cons c r =>
    rw [parseFrac, if_neg (numSafe_head c r h).2.1]

theorem parseExp_safe (rest : Str) (h : numSafe rest = true) :
    parseExp rest = ([], rest) := by
  cases rest with
  | nil => rfl
  | cons c r =>
    rw [parseExp, if_neg ?hne]
    case hne =>
      rintro (hc | hc)
      · exact (numSafe_head c r h).2.2.1 hc
      · exact (numSafe_head c r h).2.2.2 hc

theorem takeWhile_eq_self_of_dropWhile_nil (r : Str) (hdr : r.dropWhile isDigitCh = []) :
    r.takeWhile isDigitCh = r := by
  have h1 : r.takeWhile isDigitCh ++ r.dropWhile isDigitCh = r := by
    rw [List.takeWhile_append_dropWhile]
  rw [hdr, List.append_nil] at h1
  exact h1

theorem takeWhile_digits_all_append (r rest : Str) (hdr : r.dropWhile isDigitCh = []) :
    (r ++ rest).takeWhile isDigitCh = r ++ rest.takeWhile isDigitCh ∧
    (r ++ rest).dropWhile isDigitCh = rest.dropWhile isDigitCh := by
  constructor
  · rw [List.takeWhile_append, takeWhile_eq_self_of_dropWhile_nil r hdr, if_pos rfl]
  · rw [List.dropWhile_append, hdr]
    rfl

theorem takeWhile_digits_part_append (r rest : Str) (hdr : r.dropWhile isDigitCh ≠ []) :
    (r ++ rest).takeWhile isDigitCh = r.takeWhile isDigitCh ∧
    (r ++ rest).dropWhile isDigitCh = r.dropWhile isDigitCh ++ rest := by
  have hlen : (r.takeWhile isDigitCh).length ≠ r.length := by
    intro hl
    have h1 : r.takeWhile isDigitCh ++ r.dropWhile isDigitCh = r := by
      rw [List.takeWhile_append_dropWhile]
    have h2 := congrArg List.length h1
    rw [List.length_append, hl] at h2
    exact hdr (List.eq_nil_of_length_eq_zero (by omega))
  constructor
  · rw [List.takeWhile_append, if_neg hlen]
  · rw [List.dropWhile_append,
      if_neg (by cases hx : r.dropWhile isDigitCh with
        | nil => exact absurd hx hdr
        | cons a l => simp)]

theorem parseInt_append (s it s2 rest : Str) (h : parseInt s = some (it, s2))
    (hs : numSafe rest = true) : parseInt (s ++ rest) = some (it, s2 ++ rest) := by
  cases s with
  | nil => simp [parseInt] at h
  | cons c r =>
    rw [List.cons_append]
    by_cases hc0 : c = '0'
    · rw [parseInt, if_pos hc0] at h
      injection h with h1
      injection h1 with hit hs2
      rw [parseInt, if_pos hc0, hit, hs2]
    · by_cases hcd : isDigitCh c = true
      · rw [parseInt, if_neg hc0, if_pos hcd] at h
        injection h with h1
        injection h1 with hit hs2
        rw [parseInt, if_neg hc0, if_pos hcd]
        cases hdr : r.dropWhile isDigitCh with
        | nil =>
          obtain ⟨ht, hd⟩ := takeWhile_digits_all_append r rest hdr
          rw [ht, hd, takeWhile_digits_safe rest hs, dropWhile_digits_safe rest hs,
            List.append_nil]
          rw [hdr] at hs2
          rw [← hs2, ← hit, takeWhile_eq_self_of_dropWhile_nil r hdr]
          rw [List.nil_append]
        | cons a l =>
          obtain ⟨ht, hd⟩ := takeWhile_digits_part_append r rest (by rw [hdr]; simp)
          rw [ht, hd, hit, hs2]
      · rw [parseInt, if_neg hc0, if_neg (by simpa using hcd)] at h
        cases h

theorem isEmpty_false_of_ne (l : Str) (h : l ≠ []) : l.isEmpty = false := by
  cases l with
  | nil => exact absurd rfl h
  | cons a t => rfl

theorem fracBody_append (c : Char) (r ft s3 rest : Str) (h : fracBody c r = (ft, s3))
    (hs : numSafe rest = true) : fracBody c (r ++ rest) = (ft, s3 ++ rest) := by
  cases hde : (r.takeWhile isDigitCh).isEmpty with
  | true =>
    have hre : r.takeWhile isDigitCh = [] := by
      cases hx : r.takeWhile isDigitCh with
      | nil => rfl
      | cons a l => rw [hx] at hde; cases hde
    rw [fracBody, if_pos (by rw [hde])] at h
    injection h with hft hs3
    have hte : (r ++ rest).takeWhile isDigitCh = [] := by
      cases r with
      | nil => rw [List.nil_append]; exact takeWhile_digits_safe rest hs
      | cons d r2 =>
        have hdd : isDigitCh d = false := by
          rw [List.takeWhile_cons] at hre
          cases hx : isDigitCh d with
          | true => rw [hx] at hre; simp at hre
          | false => rfl
        rw [List.cons_append, List.takeWhile_cons, hdd]
        rfl
    rw [fracBody, if_pos (by rw [hte]; rfl), ← hft, ← hs3]
    rfl
  | false =>
    rw [fracBody, if_neg (by rw [hde]; simp)] at h
    injection h with hft hs3
    have hrne : r ≠ [] := by
      intro hx
      rw [hx] at hde
      simp at hde
    cases hdr : r.dropWhile isDigitCh with
    | nil =>
      obtain ⟨ht, hd⟩ := takeWhile_digits_all_append r rest hdr
      have htr := takeWhile_eq_self_of_dropWhile_nil r hdr
      have hne : ((r ++ rest).takeWhile isDigitCh).isEmpty = false := by
        rw [ht, takeWhile_digits_safe rest hs, List.append_nil]
        exact isEmpty_false_of_ne r hrne
      rw [fracBody, if_neg (by rw [hne]; simp), ht, hd,
        takeWhile_digits_safe rest hs, dropWhile_digits_safe rest hs, List.append_nil]
      rw [← hft, htr, ← hs3, hdr, List.nil_append]
    | cons a l =>
      obtain ⟨ht, hd⟩ := takeWhile_digits_part_append r rest (by rw [hdr]; simp)
      have hne : ((r ++ rest).takeWhile isDigitCh).isEmpty = false := by
        rw [ht, hde]
      rw [fracBody, if_neg (by rw [hne]; simp), ht, hd, ← hft, ← hs3]

theorem parseFrac_append (s ft s3 rest : Str) (h : parseFrac s = (ft, s3))
    (hs : numSafe rest = true) : parseFrac (s ++ rest) = (ft, s3 ++ rest) := by
  cases s with
  | nil =>
    rw [show parseFrac [] = ([], []) from rfl] at h
    injection h with hft hs3
    rw [List.nil_append, parseFrac_safe rest hs, ← hft, ← hs3]
    rfl
  | cons c r =>
    by_cases hc : c = '.'
    · rw [parseFrac, if_pos hc] at h
      rw [List.cons_append, parseFrac, if_pos hc]
      exact fracBody_append c r ft s3 rest h hs
    · rw [parseFrac, if_neg hc] at h
      injection h with hft hs3
      rw [List.cons_append, parseFrac, if_neg hc, ← hft, ← hs3]
      rfl

theorem expBody_append (c : Char) (r et rest : Str) (h : expBody c r = (et, []))
    (hs : numSafe rest = true) : expBody c (r ++ rest) = (et, rest) := by
  cases hde : ((expSign r).2.takeWhile isDigitCh).isEmpty with
  | true =>
    rw [expBody, if_pos (by rw [hde])] at h
    injection h with hft hs3
    cases hs3
  | false =>
    rw [expBody, if_neg (by rw [hde]; simp)] at h
    injection h with het hs4
    -- the exponent consumed all of `r`: its digit run reaches the end
    cases r with
    | nil =>
      rw [show expSign ([] : Str) = ([], []) from rfl] at hde
      cases hde
    | cons s2 r2 =>
      by_cases hsgn : s2 = '+' ∨ s2 = '-'
      · have hsg : expSign (s2 :: r2) = ([s2], r2) := by rw [expSign, if_pos hsgn]
        rw [hsg] at hde het hs4
        simp only at hde het hs4
        have hrne : r2 ≠ [] := by
          intro hx
          rw [hx] at hde
          simp at hde
        have hsg2 : expSign ((s2 :: r2) ++ rest) = ([s2], r2 ++ rest) := by
          rw [List.cons_append, expSign, if_pos hsgn]
        have hdr : r2.dropWhile isDigitCh = [] := hs4
        obtain ⟨ht, hd⟩ := takeWhile_digits_all_append r2 rest hdr
        have htr := takeWhile_eq_self_of_dropWhile_nil r2 hdr
        have hne : (((expSign ((s2 :: r2) ++ rest)).2).takeWhile isDigitCh).isEmpty
            = false := by
          rw [hsg2]
          simp only
          rw [ht, takeWhile_digits_safe rest hs, List.append_nil]
          exact isEmpty_false_of_ne r2 hrne
        rw [expBody, if_neg (by rw [hne]; simp), hsg2]
        simp only
        rw [ht, hd, takeWhile_digits_safe rest hs, dropWhile_digits_safe rest hs,
          List.append_nil, ← het, htr]
      · have hsg : expSign (s2 :: r2) = ([], s2 :: r2) := by rw [expSign, if_neg hsgn]
        rw [hsg] at hde het hs4
        simp only at hde het hs4
        have hsg2 : expSign ((s2 :: r2) ++ rest) = ([], (s2 :: r2) ++ rest) := by
          rw [List.cons_append, expSign, if_neg hsgn]
        have hdr : (s2 :: r2).dropWhile isDigitCh = [] := hs4
        obtain ⟨ht, hd⟩ := takeWhile_digits_all_append (s2 :: r2) rest hdr
        have htr := takeWhile_eq_self_of_dropWhile_nil (s2 :: r2) hdr
        have hne : (((expSign ((s2 :: r2) ++ rest)).2).takeWhile isDigitCh).isEmpty
            = false := by
          rw [hsg2]
          simp only
          rw [ht, takeWhile_digits_safe rest hs, List.append_nil]
          rfl
        rw [expBody, if_neg (by rw [hne]; simp), hsg2]
        simp only
        rw [ht, hd, takeWhile_digits_safe rest hs, dropWhile_digits_safe rest hs,
          List.append_nil, ← het, htr]

theorem parseExp_append (s et rest : Str) (h : parseExp s = (et, []))
    (hs : numSafe rest = true) : parseExp (s ++ rest) = (et, rest) := by
  cases s with
  | nil =>
    rw [show parseExp [] = ([], []) from rfl] at h
    injection h with hft hs3
    rw [List.nil_append, parseExp_safe rest hs, ← hft]
  | cons c r =>
    by_cases hc : c = 'e' ∨ c = 'E'
    · rw [parseExp, if_pos hc] at h
      rw [List.cons_append, parseExp, if_pos hc]
      exact expBody_append c r et rest h hs
    · rw [parseExp, if_neg hc] at h
      injection h with hft hs3
      cases hs3

theorem numAfterInt_append (neg it s2 rest : Str)
    (h2 : (numAfterInt neg it s2).2 = []) (hs : numSafe rest = true) :
    numAfterInt neg it (s2 ++ rest) = ((numAfterInt neg it s2).1, rest) := by
  cases hfr : parseFrac s2 with
  | mk f1 f2 =>
    cases hex : parseExp f2 with
    | mk e1 e2 =>
      simp only [numAfterInt, hfr, hex] at h2
      subst h2
      have hfr2 := parseFrac_append s2 f1 f2 rest hfr hs
      have hex2 := parseExp_append f2 e1 rest hex hs
      simp only [numAfterInt, hfr2, hfr, hex2, hex]

theorem numTail_append (neg r t rest : Str) (h : numTail neg r = some (t, []))
    (hs : numSafe rest = true) : numTail neg (r ++ rest) = some (t, rest) := by
  cases hpi : parseInt r with
  | none =>
    rw [numTail, hpi, numTail2] at h
    cases h
  | some p =>
    obtain ⟨it, s2⟩ := p
    rw [numTail, hpi, numTail2] at h
    injection h with h1
    have h2 : (numAfterInt neg it s2).2 = [] := by rw [h1]
    have h1a : (numAfterInt neg it s2).1 = t := by rw [h1]
    rw [numTail, parseInt_append r it s2 rest hpi hs, numTail2,
      numAfterInt_append neg it s2 rest h2 hs, h1a]

theorem parseNum_append (t rest : Str) (h : parseNum t = some (t, []))
    (hs : numSafe rest = true) : parseNum (t ++ rest) = some (t, rest) := by
  cases t with
  | nil =>
    rw [parseNum] at h
    cases h
  | cons c r =>
    rw [List.cons_append]
    by_cases hc : c = '-'
    · rw [parseNum, if_pos hc] at h
      rw [parseNum, if_pos hc]
      exact numTail_append [c] r (c :: r) rest h hs
    · rw [parseNum, if_neg hc] at h
      rw [parseNum, if_neg hc, ← List.cons_append]
      exact numTail_append [] (c :: r) (c :: r) rest h hs

theorem parseNum_head (t : Str) (h : parseNum t = some (t, [])) :
    ∃ c r, t = c :: r ∧ (c = '-' ∨ isDigitCh c = true) := by
  cases t with
  | nil =>
    rw [parseNum] at h
    cases h
  | cons c r =>
    refine ⟨c, r, rfl, ?_⟩
    by_cases hc : c = '-'
    · exact Or.inl hc
    · refine Or.inr ?_
      rw [parseNum, if_neg hc] at h
      by_cases hc0 : c = '0'
      · rw [hc0]
        decide
      · by_cases hcd : isDigitCh c = true
        · exact hcd
        · exfalso
          rw [numTail, parseInt, if_neg hc0, if_neg hcd, numTail2] at h
          cases h

theorem digitFacts (c : Char) (hd : isDigitCh c = true) :
    isJWs c = false ∧ ('n' == c) = false ∧ ('t' == c) = false ∧ ('f' == c) = false ∧
    ¬ c = '"' ∧ ¬ c = '[' ∧ ¬ c = '\x7b' ∧ ¬ c = ']' := by
  have hb : 48 ≤ c.toNat ∧ c.toNat ≤ 57 := by
    simpa [isDigitCh] using hd
  have hne : ∀ d : Char, d.toNat < 48 ∨ 57 < d.toNat → ¬ c = d := by
    intro d hdn he
    rw [he] at hb
    rcases hdn with h1 | h1 <;> omega
  refine ⟨?_, ?_, ?_, ?_, ?_, ?_, ?_, ?_⟩
  · have h1 := hne ' ' (by decide)
    have h2 := hne '\t' (by decide)
    have h3 := hne '\n' (by decide)
    have h4 := hne '\r' (by decide)
    simp [isJWs, h1, h2, h3, h4]
  · exact beq_eq_false_iff_ne.mpr (fun he => hne 'n' (by decide) he.symm)
  · exact beq_eq_false_iff_ne.mpr (fun he => hne 't' (by decide) he.symm)
  · exact beq_eq_false_iff_ne.mpr (fun he => hne 'f' (by decide) he.symm)
  · exact hne '"' (by decide)
  · exact hne '[' (by decide)
  · exact hne '\x7b' (by decide)
  · exact hne ']' (by decide)

theorem skipJWs_cons (c : Char) (s : Str) (h : isJWs c = false) :
    skipJWs (c :: s) = c :: s := by
  simp [skipJWs, List.dropWhile_cons, h]

theorem parseVal_null (fuel : Nat) (rest : Str) :
    parseVal (fuel + 1) ("null".data ++ rest) = some (Json.null, rest) := rfl

theorem parseVal_true (fuel : Nat) (rest : Str) :
    parseVal (fuel + 1) ("true".data ++ rest) = some (Json.bool true, rest) := rfl

theorem parseVal_false (fuel : Nat) (rest : Str) :
    parseVal (fuel + 1) ("false".data ++ rest) = some (Json.bool false, rest) := rfl

theorem parseVal_str (fuel : Nat) (X : Str) :
    parseVal (fuel + 1) ('"' :: X) =
      (match parseStrBody X with
       | some (body, r) => some (Json.str body, r)
       | none => none) := rfl

theorem parseVal_numNeg (fuel : Nat) (X : Str) :
    parseVal (fuel + 1) ('-' :: X) =
      (match parseNum ('-' :: X) with
       | some (tok, r) => some (Json.num tok, r)
       | none => none) := rfl

theorem parseVal_arr (fuel : Nat) (X : Str) :
    parseVal (fuel + 1) ('[' :: X) =
      (match skipJWs X with
       | d :: r2 =>
         if d = ']' then some (Json.arr [], r2)
         else
           match parseElems fuel X with
           | some (es, r3) => some (Json.arr es, r3)
           | none => none
       | [] => none) := rfl

theorem parseVal_obj (fuel : Nat) (X : Str) :
    parseVal (fuel + 1) ('\x7b' :: X) =
      (match skipJWs X with
       | d :: r2 =>
         if d = '\x7d' then some (Json.obj [], r2)
         else
           match parseFields fuel X with
           | some (fs, r3) => some (Json.obj fs, r3)
           | none => none
       | [] => none) := rfl

theorem parseVal_digit (fuel : Nat) (c : Char) (X : Str) (hd : isDigitCh c = true) :
    parseVal (fuel + 1) (c :: X) =
      (match parseNum (c :: X) with
       | some (tok, r) => some (Json.num tok, r)
       | none => none) := by
  obtain ⟨hws, hn, ht, hf, hq, hlb, hob, _⟩ := digitFacts c hd
  have hsk : skipJWs (c :: X) = c :: X := skipJWs_cons c X hws
  have hnull : startsWithL ("null".data) (c :: X) = false := by
    rw [show ("null".data : Str) = 'n' :: "ull".data from rfl, startsWithL, hn,
      Bool.false_and]
  have htrue : startsWithL ("true".data) (c :: X) = false := by
    rw [show ("true".data : Str) = 't' :: "rue".data from rfl, startsWithL, ht,
      Bool.false_and]
  have hfalse : startsWithL ("false".data) (c :: X) = false := by
    rw [show ("false".data : Str) = 'f' :: "alse".data from rfl, startsWithL, hf,
      Bool.false_and]
  simp only [parseVal, hsk, hnull, htrue, hfalse, Bool.false_eq_true, if_false]
  rw [if_neg hq, if_neg hlb, if_neg hob]

theorem stringify_head (m : Json) (h : jsonWF m = true) :
    ∃ c t, stringify m = c :: t ∧ isJWs c = false ∧ ¬ c = ']' := by
  cases m with
  | null => exact ⟨'n', "ull".data, rfl, by decide, by decide⟩
  | bool b =>
    cases b with
    | true => exact ⟨'t', "rue".data, rfl, by decide, by decide⟩
    | false => exact ⟨'f', "alse".data, rfl, by decide, by decide⟩
  | str s => exact ⟨'"', s.flatMap escChar ++ ['"'], rfl, by decide, by decide⟩
  | arr es => exact ⟨'[', stringifyElems es ++ [']'], rfl, by decide, by decide⟩
  | obj fs => exact ⟨'\x7b', stringifyFields fs ++ ['\x7d'], rfl, by decide, by decide⟩
  | num tok =>
    have hp : parseNum tok = some (tok, []) := by simpa [jsonWF] using h
    obtain ⟨c, r, htok, hc⟩ := parseNum_head tok hp
    subst htok
    refine ⟨c, r, rfl, ?_, ?_⟩
    · rcases hc with hc | hc
      · rw [hc]; decide
      · exact (digitFacts c hc).1
    · rcases hc with hc | hc
      · rw [hc]; decide
      · exact (digitFacts c hc).2.2.2.2.2.2.2

theorem jsize_pos (m : Json) : 1 ≤ jsize m := by
  cases m <;> simp [jsize]

theorem jsizeL_pos (e : Json) (es : List Json) : 1 ≤ jsizeL (e :: es) := by
  have h1 : jsizeL (e :: es) = 1 + jsize e + jsizeL es := rfl
  omega

theorem jsizeF_pos (f : Str × Json) (fs : List (Str × Json)) : 1 ≤ jsizeF (f :: fs) := by
  obtain ⟨k, v⟩ := f
  have h1 : jsizeF ((k, v) :: fs) = 1 + jsize v + jsizeF fs := rfl
  omega

theorem sizeLe_aux : ∀ n : Nat,
    (∀ m : Json, sizeOf m ≤ n → jsonWF m = true → jsize m ≤ (stringify m).length) ∧
    (∀ es : List Json, sizeOf es ≤ n → jsonWFL es = true →
      jsizeL es ≤ (stringifyElems es).length + 1) ∧
    (∀ fs : List (Str × Json), sizeOf fs ≤ n → jsonWFF fs = true →
      jsizeF fs ≤ (stringifyFields fs).length + 1) := by
  intro n
  induction n with
  | zero =>
    refine ⟨?_, ?_, ?_⟩
    · intro m hszo _
      exfalso
      cases m <;> simp at hszo
    · intro es hszo _
      exfalso
      cases es <;> simp at hszo
    · intro fs hszo _
      exfalso
      cases fs <;> simp at hszo
  | succ n ih =>
    obtain ⟨ih1, ih2, ih3⟩ := ih
    refine ⟨?_, ?_, ?_⟩
    · intro m hszo hwf
      cases m with
      | null => decide
      | bool b => cases b <;> decide
      | num tok =>
        have hp : parseNum tok = some (tok, []) := by simpa [jsonWF] using hwf
        obtain ⟨c, r, htok, _⟩ := parseNum_head tok hp
        subst htok
        simp only [jsize, stringify, List.length_cons]
        omega
      | str s =>
        simp only [jsize, stringify, sStr, List.length_cons]
        omega
      | arr es =>
        have hszo2 : sizeOf es ≤ n := by
          simp at hszo
          omega
        have hL := ih2 es hszo2 hwf
        have hlen : (stringify (Json.arr es)).length = (stringifyElems es).length + 2 := by
          show ('[' :: (stringifyElems es ++ [']'])).length = _
          simp [List.length_append]
        have hj : jsize (Json.arr es) = 1 + jsizeL es := rfl
        omega
      | obj fs =>
        have hszo2 : sizeOf fs ≤ n := by
          simp at hszo
          omega
        have hF := ih3 fs hszo2 hwf
        have hlen : (stringify (Json.obj fs)).length = (stringifyFields fs).length + 2 := by
          show ('\x7b' :: (stringifyFields fs ++ ['\x7d'])).length = _
          simp [List.length_append]
        have hj : jsize (Json.obj fs) = 1 + jsizeF fs := rfl
        omega
    · intro es hszo hwfl
      cases es with
      | nil => decide
      | cons e es2 =>
        have hb : sizeOf e ≤ n ∧ sizeOf es2 ≤ n := by
          have h2 : sizeOf (e :: es2) = 1 + sizeOf e + sizeOf es2 := rfl
          rw [h2] at hszo
          omega
        simp only [jsonWFL, Bool.and_eq_true] at hwfl
        have hje := ih1 e hb.1 hwfl.1
        have hjl := ih2 es2 hb.2 hwfl.2
        have hj : jsizeL (e :: es2) = 1 + jsize e + jsizeL es2 := rfl
        cases es2 with
        | nil =>
          have hlen : stringifyElems [e] = stringify e := rfl
          have h0 : jsizeL ([] : List Json) = 0 := rfl
          rw [hj, hlen]
          omega
        | cons e2 es3 =>
          have hlen : stringifyElems (e :: e2 :: es3) =
              stringify e ++ (',' :: stringifyElems (e2 :: es3)) := rfl
          rw [hj, hlen, List.length_append, List.length_cons]
          omega
    · intro fs hszo hwff
      cases fs with
      | nil => decide
      | cons f fs2 =>
        obtain ⟨k, v⟩ := f
        have hb : sizeOf v ≤ n ∧ sizeOf fs2 ≤ n := by
          have h2 : sizeOf ((k, v) :: fs2) = 1 + (1 + sizeOf k + sizeOf v) + sizeOf fs2 := rfl
          rw [h2] at hszo
          omega
        simp only [jsonWFF, Bool.and_eq_true] at hwff
        have hjv := ih1 v hb.1 hwff.1
        have hjf := ih3 fs2 hb.2 hwff.2
        have hj : jsizeF ((k, v) :: fs2) = 1 + jsize v + jsizeF fs2 := rfl
        cases fs2 with
        | nil =>
          have hlen : stringifyFields [(k, v)] = sStr k ++ (':' :: stringify v) := rfl
          have h0 : jsizeF ([] : List (Str × Json)) = 0 := rfl
          rw [hj, hlen, List.length_append, List.length_cons]
          omega
        | cons f2 fs3 =>
          have hlen : stringifyFields ((k, v) :: f2 :: fs3) =
              (sStr k ++ (':' :: stringify v)) ++ (',' :: stringifyFields (f2 :: fs3)) := rfl
          rw [hj, hlen, List.length_append, List.length_append, List.length_cons,
            List.length_cons]
          omega

theorem roundAux (fuel : Nat) :
    (∀ m rest, jsonWF m = true → jsize m ≤ fuel → numSafe rest = true →
      parseVal fuel (stringify m ++ rest) = some (m, rest)) ∧
    (∀ es rest, jsonWFL es = true → es ≠ [] → jsizeL es ≤ fuel →
      parseElems fuel (stringifyElems es ++ (']' :: rest)) = some (es, rest)) ∧
    (∀ fs rest, jsonWFF fs = true → fs ≠ [] → jsizeF fs ≤ fuel →
      parseFields fuel (stringifyFields fs ++ ('\x7d' :: rest)) = some (fs, rest)) := by
  induction fuel with
  | zero =>
    refine ⟨?_, ?_, ?_⟩
    · intro m rest _ hsz _
      exact absurd hsz (by have := jsize_pos m; omega)
    · intro es rest _ hne hsz
      cases es with
      | nil => exact absurd rfl hne
      | cons e es2 => exact absurd hsz (by have := jsizeL_pos e es2; omega)
    · intro fs rest _ hne hsz
      cases fs with
      | nil => exact absurd rfl hne
      | cons f fs2 => exact absurd hsz (by have := jsizeF_pos f fs2; omega)
  | succ fuel ih =>
    obtain ⟨ih1, ih2, ih3⟩ := ih
    refine ⟨?_, ?_, ?_⟩
    · intro m rest hwf hsz hns
      cases m with
      | null => exact parseVal_null fuel rest
      | bool b =>
        cases b with
        | true => exact parseVal_true fuel rest
        | false => exact parseVal_false fuel rest
      | str s =>
        have hsh : stringify (Json.str s) ++ rest =
            '"' :: (s.flatMap escChar ++ ('"' :: rest)) := by
          show ('"' :: (s.flatMap escChar ++ ['"'])) ++ rest = _
          simp only [List.cons_append, List.append_assoc, List.singleton_append,
              List.nil_append]
        rw [hsh, parseVal_str, parseStrBody_escChar]
      | num tok =>
        have hp : parseNum tok = some (tok, []) := by simpa [jsonWF] using hwf
        obtain ⟨c, r, htok, hc⟩ := parseNum_head tok hp
        subst htok
        have hpp : parseNum (c :: (r ++ rest)) = some (c :: r, rest) := by
          rw [← List.cons_append]
          exact parseNum_append (c :: r) rest hp hns
        have hsh : stringify (Json.num (c :: r)) ++ rest = c :: (r ++ rest) := by
          show (c :: r) ++ rest = c :: (r ++ rest)
          rw [List.cons_append]
        rw [hsh]
        rcases hc with hc | hc
        · subst hc
          rw [parseVal_numNeg, hpp]
        · rw [parseVal_digit fuel c (r ++ rest) hc, hpp]
      | arr es =>
        cases es with
        | nil => rfl
        | cons e es2 =>
          have hL : jsonWFL (e :: es2) = true := hwf
          have hparts := hL
          simp only [jsonWFL, Bool.and_eq_true] at hparts
          have hsz2 : jsizeL (e :: es2) ≤ fuel := by
            have h1 : jsize (Json.arr (e :: es2)) = 1 + jsizeL (e :: es2) := rfl
            rw [h1] at hsz
            omega
          have hP2 := ih2 (e :: es2) rest hL (List.cons_ne_nil _ _) hsz2
          obtain ⟨ch, t, hst, hws, hnb⟩ := stringify_head e hparts.1
          have hXe : ∃ X, stringifyElems (e :: es2) = stringify e ++ X := by
            cases es2 with
            | nil => exact ⟨[], by rw [List.append_nil, stringifyElems]⟩
            | cons e2 es3 => exact ⟨',' :: stringifyElems (e2 :: es3), rfl⟩
          obtain ⟨X, hXe⟩ := hXe
          have hcons : stringifyElems (e :: es2) ++ (']' :: rest) =
              ch :: ((t ++ X) ++ (']' :: rest)) := by
            rw [hXe, hst, List.cons_append, List.cons_append]
          have hsk2 : skipJWs (stringifyElems (e :: es2) ++ (']' :: rest)) =
              stringifyElems (e :: es2) ++ (']' :: rest) := by
            rw [hcons]
            exact skipJWs_cons ch ((t ++ X) ++ (']' :: rest)) hws
          have hshape : stringify (Json.arr (e :: es2)) ++ rest =
              '[' :: (stringifyElems (e :: es2) ++ (']' :: rest)) := by
            show ('[' :: (stringifyElems (e :: es2) ++ [']'])) ++ rest = _
            simp only [List.cons_append, List.append_assoc, List.singleton_append,
              List.nil_append]
          have hP2b : parseElems fuel (ch :: ((t ++ X) ++ (']' :: rest))) =
              some (e :: es2, rest) := by
            rw [← hcons]
            exact hP2
          rw [hshape, parseVal_arr, hsk2, hcons]
          show (if ch = ']' then some (Json.arr [], (t ++ X) ++ (']' :: rest))
                else
                  match parseElems fuel (ch :: ((t ++ X) ++ (']' :: rest))) with
                  | some (es3, r3) => some (Json.arr es3, r3)
                  | none => none) = some (Json.arr (e :: es2), rest)
          rw [if_neg hnb, hP2b]
      | obj fs =>
        cases fs with
        | nil => rfl
        | cons f fs2 =>
          obtain ⟨k, v⟩ := f
          have hF : jsonWFF ((k, v) :: fs2) = true := hwf
          have hsz2 : jsizeF ((k, v) :: fs2) ≤ fuel := by
            have h1 : jsize (Json.obj ((k, v) :: fs2)) = 1 + jsizeF ((k, v) :: fs2) := rfl
            rw [h1] at hsz
            omega
          have hP3 := ih3 ((k, v) :: fs2) rest hF (List.cons_ne_nil _ _) hsz2
          have hXf : ∃ X, stringifyFields ((k, v) :: fs2) =
              (sStr k ++ (':' :: stringify v)) ++ X := by
            cases fs2 with
            | nil => exact ⟨[], by rw [List.append_nil, stringifyFields]⟩
            | cons f2 fs3 => exact ⟨',' :: stringifyFields (f2 :: fs3), rfl⟩
          obtain ⟨X, hXf⟩ := hXf
          have hcons : stringifyFields ((k, v) :: fs2) ++ ('\x7d' :: rest) =
              '"' :: (k.flatMap escChar ++ ('"' :: (':' :: (stringify v ++
                (X ++ ('\x7d' :: rest)))))) := by
            rw [hXf]
            show ((('"' :: (k.flatMap escChar ++ ['"'])) ++ (':' :: stringify v)) ++ X) ++
              ('\x7d' :: rest) = _
            simp only [List.cons_append, List.append_assoc, List.singleton_append,
              List.nil_append]
          have hsk2 : skipJWs (stringifyFields ((k, v) :: fs2) ++ ('\x7d' :: rest)) =
              stringifyFields ((k, v) :: fs2) ++ ('\x7d' :: rest) := by
            rw [hcons]
            exact skipJWs_cons _ _ (by decide)
          have hshape : stringify (Json.obj ((k, v) :: fs2)) ++ rest =
              '\x7b' :: (stringifyFields ((k, v) :: fs2) ++ ('\x7d' :: rest)) := by
            show ('\x7b' :: (stringifyFields ((k, v) :: fs2) ++ ['\x7d'])) ++ rest = _
            simp only [List.cons_append, List.append_assoc, List.singleton_append,
              List.nil_append]
          have hP3b : parseFields fuel ('"' :: (k.flatMap escChar ++ ('"' :: (':' ::
              (stringify v ++ (X ++ ('\x7d' :: rest))))))) =
              some ((k, v) :: fs2, rest) := by
            rw [← hcons]
            exact hP3
          rw [hshape, parseVal_obj, hsk2, hcons]
          show (if '"' = '\x7d' then some (Json.obj [], k.flatMap escChar ++ ('"' :: (':' ::
                  (stringify v ++ (X ++ ('\x7d' :: rest))))))
                else
                  match parseFields fuel ('"' :: (k.flatMap escChar ++ ('"' :: (':' ::
                      (stringify v ++ (X ++ ('\x7d' :: rest))))))) with
                  | some (fs3, r3) => some (Json.obj fs3, r3)
                  | none => none) = some (Json.obj ((k, v) :: fs2), rest)
          rw [if_neg (by decide), hP3b]
    · intro es rest hwfl hne hsz
      cases es with
      | nil => exact absurd rfl hne
      | cons e es2 =>
        have hparts := hwfl
        simp only [jsonWFL, Bool.and_eq_true] at hparts
        have hsze : jsize e ≤ fuel := by
          have h1 : jsizeL (e :: es2) = 1 + jsize e + jsizeL es2 := rfl
          rw [h1] at hsz
          omega
        cases es2 with
        | nil =>
          have h1 := ih1 e (']' :: rest) hparts.1 hsze rfl
          show parseElems (fuel + 1) (stringify e ++ (']' :: rest)) = some ([e], rest)
          rw [parseElems, h1]
          rfl
        | cons e2 es3 =>
          have hsz3 : jsizeL (e2 :: es3) ≤ fuel := by
            have h1 : jsizeL (e :: e2 :: es3) = 1 + jsize e + jsizeL (e2 :: es3) := rfl
            rw [h1] at hsz
            omega
          have hP2b := ih2 (e2 :: es3) rest hparts.2 (List.cons_ne_nil _ _) hsz3
          have h1 := ih1 e (',' :: (stringifyElems (e2 :: es3) ++ (']' :: rest)))
            hparts.1 hsze rfl
          have hshape : stringifyElems (e :: e2 :: es3) ++ (']' :: rest) =
              stringify e ++ (',' :: (stringifyElems (e2 :: es3) ++ (']' :: rest))) := by
            show (stringify e ++ (',' :: stringifyElems (e2 :: es3))) ++ (']' :: rest) = _
            simp only [List.cons_append, List.append_assoc]
          rw [hshape, parseElems, h1]
          show (match parseElems fuel (stringifyElems (e2 :: es3) ++ (']' :: rest)) with
                | some (es4, r3) => some (e :: es4, r3)
                | none => none) = some (e :: e2 :: es3, rest)
          rw [hP2b]
    · intro fs rest hwff hne hsz
      cases fs with
      | nil => exact absurd rfl hne
      | cons f fs2 =>
        obtain ⟨k, v⟩ := f
        have hparts := hwff
        simp only [jsonWFF, Bool.and_eq_true] at hparts
        have hszv : jsize v ≤ fuel := by
          have h1 : jsizeF ((k, v) :: fs2) = 1 + jsize v + jsizeF fs2 := rfl
          rw [h1] at hsz
          omega
        cases fs2 with
        | nil =>
          have h1 := ih1 v ('\x7d' :: rest) hparts.1 hszv rfl
          have hshape : stringifyFields [(k, v)] ++ ('\x7d' :: rest) =
              '"' :: (k.flatMap escChar ++ ('"' :: (':' :: (stringify v ++
                ('\x7d' :: rest))))) := by
            show (('"' :: (k.flatMap escChar ++ ['"'])) ++ (':' :: stringify v)) ++
              ('\x7d' :: rest) = _
            simp only [List.cons_append, List.append_assoc, List.singleton_append,
              List.nil_append]
          rw [hshape, parseFields]
          show (match parseStrBody (k.flatMap escChar ++ ('"' :: (':' :: (stringify v ++
                ('\x7d' :: rest))))) with
               | none => none
               | some (key, r1) =>
                 match skipJWs r1 with
                 | d :: r2 =>
                   if d = ':' then
                     match parseVal fuel r2 with
                     | none => none
                     | some (val, r3) =>
                       match skipJWs r3 with
                       | d2 :: r4 =>
                         if d2 = ',' then
                           match parseFields fuel r4 with
                           | some (fs3, r5) => some ((key, val) :: fs3, r5)
                           | none => none
                         else if d2 = '\x7d' then some ([(key, val)], r4)
                         else none
                       | [] => none
                   else none
                 | [] => none) = some ([(k, v)], rest)
          rw [parseStrBody_escChar]
          show (match parseVal fuel (stringify v ++ ('\x7d' :: rest)) with
               | none => none
               | some (val, r3) =>
                 match skipJWs r3 with
                 | d2 :: r4 =>
                   if d2 = ',' then
                     match parseFields fuel r4 with
                     | some (fs3, r5) => some ((k, val) :: fs3, r5)
                     | none => none
                   else if d2 = '\x7d' then some ([(k, val)], r4)
                   else none
                 | [] => none) = some ([(k, v)], rest)
          rw [h1]
          rfl
        | cons f2 fs3 =>
          have hszf3 : jsizeF (f2 :: fs3) ≤ fuel := by
            have h1 : jsizeF ((k, v) :: f2 :: fs3) = 1 + jsize v + jsizeF (f2 :: fs3) := rfl
            rw [h1] at hsz
            omega
          have hP3b := ih3 (f2 :: fs3) rest hparts.2 (List.cons_ne_nil _ _) hszf3
          have h1 := ih1 v (',' :: (stringifyFields (f2 :: fs3) ++ ('\x7d' :: rest)))
            hparts.1 hszv rfl
          have hshape : stringifyFields ((k, v) :: f2 :: fs3) ++ ('\x7d' :: rest) =
              '"' :: (k.flatMap escChar ++ ('"' :: (':' :: (stringify v ++ (',' ::
                (stringifyFields (f2 :: fs3) ++ ('\x7d' :: rest))))))) := by
            show ((('"' :: (k.flatMap escChar ++ ['"'])) ++ (':' :: stringify v)) ++
              (',' :: stringifyFields (f2 :: fs3))) ++ ('\x7d' :: rest) = _
            simp only [List.cons_append, List.append_assoc, List.singleton_append,
              List.nil_append]
          rw [hshape, parseFields]
          show (match parseStrBody (k.flatMap escChar ++ ('"' :: (':' :: (stringify v ++
                (',' :: (stringifyFields (f2 :: fs3) ++ ('\x7d' :: rest))))))) with
               | none => none
               | some (key, r1) =>
                 match skipJWs r1 with
                 | d :: r2 =>
                   if d = ':' then
                     match parseVal fuel r2 with
                     | none => none
                     | some (val, r3) =>
                       match skipJWs r3 with
                       | d2 :: r4 =>
                         if d2 = ',' then
                           match parseFields fuel r4 with
                           | some (fs4, r5) => some ((key, val) :: fs4, r5)
                           | none => none
                         else if d2 = '\x7d' then some ([(key, val)], r4)
                         else none
                       | [] => none
                   else none
                 | [] => none) = some ((k, v) :: f2 :: fs3, rest)
          rw [parseStrBody_escChar]
          show (match parseVal fuel (stringify v ++ (',' :: (stringifyFields (f2 :: fs3) ++
                ('\x7d' :: rest)))) with
               | none => none
               | some (val, r3) =>
                 match skipJWs r3 with
                 | d2 :: r4 =>
                   if d2 = ',' then
                     match parseFields fuel r4 with
                     | some (fs4, r5) => some ((k, val) :: fs4, r5)
                     | none => none
                   else if d2 = '\x7d' then some ([(k, val)], r4)
                   else none
                 | [] => none) = some ((k, v) :: f2 :: fs3, rest)
          rw [h1]
          show (match parseFields fuel (stringifyFields (f2 :: fs3) ++ ('\x7d' :: rest)) with
                | some (fs4, r5) => some ((k, v) :: fs4, r5)
                | none => none) = some ((k, v) :: f2 :: fs3, rest)
          rw [hP3b]

theorem jsonParse_stringify (m : Json) (h : jsonWF m = true) :
    jsonParse (stringify m) = some m := by
  have hsz := (sizeLe_aux (sizeOf m)).1 m (Nat.le_refl _) h
  have h1 := (roundAux ((stringify m).length + 1)).1 m [] h (by omega) rfl
  rw [List.append_nil] at h1
  rw [jsonParse, h1]
  rfl

/-- Counterexample to the literal reading of C4: the page appends the
*trimmed* prompt to the thread, not the raw prompt.  Submitting the raw
prompt with surrounding spaces records a user turn whose content differs
from what was typed. -/
theorem c4_counterexample :
    (doSubmit initSession (" hi ".data) false
        (.ok ⟨none, some [Json.null], []⟩)).history =
      [⟨"user".data, "hi".data⟩, ⟨"assistant".data, "[null]".data⟩] ∧
    ¬ (" hi ".data : Str) = "hi".data := by
  decide

/-- **C4** (amended: the recorded user turn holds the *trimmed* prompt).  On a
successful turn the thread gains a user turn holding the trimmed prompt and an
assistant turn whose content is the response text (when non-empty) followed by
the delimiter and the serialization of the exact message list; that
serialization occurs verbatim as a suffix of the assistant content and parses
back to exactly the same message list. -/
theorem c4_history_roundtrip (s : Session) (p : Str) (isRef : Bool) (d : ApiData)
    (m : Json) (ms : List Json)
    (hgo : ((trimL p).isEmpty || (s.appState == AppState.thinking)) = false)
    (herr : d.error = none) (hmsgs : d.messages = some (m :: ms))
    (hwf : jsonWFL (m :: ms) = true) :
    (doSubmit s p isRef (.ok d)).history =
      (if isRef then s.history else []) ++
        [⟨"user".data, trimL p⟩,
         ⟨"assistant".data, assistantContent d.text (m :: ms)⟩] ∧
    (∃ pre : Str, assistantContent d.text (m :: ms) =
      pre ++ stringify (Json.arr (m :: ms))) ∧
    jsonParse (stringify (Json.arr (m :: ms))) = some (Json.arr (m :: ms)) := by
  refine ⟨?_, ?_, ?_⟩
  · rw [doSubmit_ok_success s p isRef d m ms hgo (by rw [herr]; rfl) hmsgs]
  · by_cases ht : d.text.isEmpty
    · refine ⟨[], ?_⟩
      rw [assistantContent, if_pos ht, List.nil_append]
    · refine ⟨d.text ++ ('\n' :: delim) ++ ['\n'], ?_⟩
      rw [assistantContent, if_neg ht]
      simp only [List.append_assoc, List.cons_append, List.singleton_append,
        List.nil_append]
  · have hA : jsonWF (Json.arr (m :: ms)) = true := by
      rw [jsonWF]
      exact hwf
    exact jsonParse_stringify (Json.arr (m :: ms)) hA

/-- Witness for C4 at a concrete successful turn. -/
theorem c4_history_roundtrip_witness :
    ((trimL ("make a card".data)).isEmpty ||
        (initSession.appState == AppState.thinking)) = false ∧
    ((doSubmit initSession ("make a card".data) false
          (.ok ⟨none, some [Json.num ['4', '2']], "ok".data⟩)).history =
        (if false then initSession.history else []) ++
          [⟨"user".data, trimL ("make a card".data)⟩,
           ⟨"assistant".data, assistantContent ("ok".data) [Json.num ['4', '2']]⟩] ∧
      (∃ pre : Str, assistantContent ("ok".data) [Json.num ['4', '2']] =
        pre ++ stringify (Json.arr [Json.num ['4', '2']])) ∧
      jsonParse (stringify (Json.arr [Json.num ['4', '2']])) =
        some (Json.arr [Json.num ['4', '2']])) :=
  ⟨by decide,
   c4_history_roundtrip initSession ("make a card".data) false
     ⟨none, some [Json.num ['4', '2']], "ok".data⟩ (Json.num ['4', '2']) []
     (by decide) rfl rfl (by decide)⟩

/-! ### Executable sanity checks -/

example : (Json.arr [Json.null, Json.num ['1']]) ≠ Json.null := by decide

example : jsonParse ("[1, 2]".data) = some (Json.arr [Json.num ['1'], Json.num ['2']]) := by
  decide

example : jsonParse (" null ".data) = some Json.null := by decide

example : jsonParse ("[1, 2".data) = none := by decide

example : jsonParse ("01".data) = none := by decide

example :
    jsonParse ("\x7b\"a\": [true, \"x\"]\x7d".data) =
      some (Json.obj [("a".data, Json.arr [Json.bool true, Json.str ['x']])]) := by
  decide

example : jsonParse ("\"a\\nb\"".data) = some (Json.str ['a', '\n', 'b']) := by decide

example : jsonParse ("-12.5e+3".data) = some (Json.num ("-12.5e+3".data)) := by decide

example :
    stringify (Json.obj [("a".data, Json.arr [Json.num ['1'], Json.null])]) =
      "\x7b\"a\":[1,null]\x7d".data := by
  decide

example : normalizeResp [⟨"text".data, some ("hello".data), none, none⟩] = ⟨[], "hello".data⟩ := by
  decide

example :
    normalizeResp [⟨"text".data,
      some (("Here.\n---a2ui_JSON---\n[\x7b\"x\":1\x7d]").data), none, none⟩] =
      ⟨[Json.obj [(['x'], Json.num ['1'])]], "Here.".data⟩ := by
  decide

example :
    normalizeResp [⟨"text".data,
      some (("Hi\n---a2ui_JSON---\n```json\n[1]\n```").data), none, none⟩] =
      ⟨[Json.num ['1']], "Hi".data⟩ := by
  decide

example :
    routeStart (Json.obj [("prompt".data, Json.str "  hi  ".data)]) =
      .callAgent ("hi".data) := by decide

example : routeStart (Json.obj []) = .respond 400 ("prompt is required".data) := by decide
